import Mathlib

/-!
# Supervisor core of the bulk-import tool (package `lightning`)

A shallow embedding of `pkg/lightning/lightning.go` and `cmd/tidb-lightning/main.go`.

* Go strings are byte strings; the functions below work on the character list of a
  `String`.  Every byte the code inspects (`'/'`, `'+'`, `'-'`, the decimal digits) is
  ASCII, so working on characters instead of UTF-8 bytes does not change any result.
* `int`, `int64` values are `Int`; `uint64` arithmetic is `Nat` arithmetic modulo `2^64`.
* A handler is a function from the supervisor state and the request to the new state,
  the response written, and the list of cancel functions it invoked.
-/

namespace TidbLightning

deriving instance DecidableEq for Except

/-! ## Go standard library: `strings`, `strconv` -/

/-- The Go function `strings.HasPrefix(s, p)`. -/
def hasPrefixChars : List Char → List Char → Bool
  | _, [] => true
  | [], _ :: _ => false
  | c :: cs, p :: ps => c == p && hasPrefixChars cs ps

/-- The Go function `strings.TrimPrefix(s, p)`. -/
def trimPrefixChars (s p : List Char) : List Char :=
  if hasPrefixChars s p then s.drop p.length else s

/-- The Go function `strings.IndexByte(s, c)`: index of the first `c`, or `-1`. -/
def indexByte : List Char → Char → Int
  | [], _ => -1
  | x :: xs, c =>
    if x = c then 0
    else
      let i := indexByte xs c
      if 0 ≤ i then i + 1 else -1

/-- The Go function `strings.Contains(s, sub)`. -/
def stringsContains : List Char → List Char → Bool
  | [], sub => hasPrefixChars [] sub
  | c :: cs, sub => hasPrefixChars (c :: cs) sub || stringsContains cs sub

/-- The two sentinel errors of `strconv`. -/
inductive NumErrKind where
  | ErrSyntax
  | ErrRange
  deriving DecidableEq, Repr

/-- The Go type `strconv.NumError`. -/
structure NumError where
  Func : String
  Num : String
  Err : NumErrKind
  deriving DecidableEq, Repr

def maxUint64 : Nat := 2 ^ 64 - 1

/-- The digit loop of `strconv.ParseUint(s, 10, 64)`, started with accumulator `n`.
Any byte outside `'0'..'9'` is a syntax error in base 10 (letters have digit value
`≥ 10`, and an underscore is accepted only with base 0). -/
def parseUintLoop (n : Nat) : List Char → Except NumErrKind Nat
  | [] => .ok n
  | c :: cs =>
    if c.isDigit then
      let d := c.toNat - '0'.toNat
      if n ≥ maxUint64 / 10 + 1 then .error .ErrRange
      else
        let n10 := n * 10
        let n1 := (n10 + d) % 2 ^ 64
        if n1 < n10 ∨ n1 > maxUint64 then .error .ErrRange
        else parseUintLoop n1 cs
    else .error .ErrSyntax

/-- The Go call `strconv.ParseUint(s, 10, 64)`; only the error kind is kept, since
`ParseInt` overwrites `Func` and `Num`. -/
def ParseUint (s : List Char) : Except NumErrKind Nat :=
  match s with
  | [] => .error .ErrSyntax
  | _ :: _ => parseUintLoop 0 s

/-- The Go call `strconv.ParseInt(s, 10, 64)`. -/
def ParseInt (s0 : List Char) : Except NumError Int :=
  match s0 with
  | [] => .error ⟨"ParseInt", "", .ErrSyntax⟩
  | c :: rest =>
    let neg := c == '-'
    let s := if c = '+' then rest else if c = '-' then rest else s0
    match ParseUint s with
    | .error .ErrSyntax => .error ⟨"ParseInt", String.mk s0, .ErrSyntax⟩
    | .error .ErrRange => .error ⟨"ParseInt", String.mk s0, .ErrRange⟩
    | .ok un =>
      let cutoff : Nat := 2 ^ 63
      if !neg && un ≥ cutoff then .error ⟨"ParseInt", String.mk s0, .ErrRange⟩
      else if neg && un > cutoff then .error ⟨"ParseInt", String.mk s0, .ErrRange⟩
      else .ok (if neg then -(un : Int) else (un : Int))

/-! ## Task configuration and dump metadata (the fields the supervisor reads) -/

/-- The section `cfg.App` of `config.Config`. -/
structure AppConfig where
  CheckRequirements : Bool
  TableConcurrency : Int
  RegionConcurrency : Int
  deriving DecidableEq, Repr

/-- The section `cfg.TikvImporter` of `config.Config`. -/
structure TikvImporterConfig where
  Backend : String
  EngineMemCacheSize : Int
  deriving DecidableEq, Repr

/-- The section `cfg.Checkpoint` of `config.Config`. -/
structure CheckpointConfig where
  Enable : Bool
  Driver : String
  Schema : String
  deriving DecidableEq, Repr

/-- The Go type `config.Config`, restricted to the fields read in `lightning.go`. -/
structure Config where
  TaskID : Int
  App : AppConfig
  TikvImporter : TikvImporterConfig
  Checkpoint : CheckpointConfig
  deriving DecidableEq, Repr

/-- Modelled from the spec: the constant `config.BackendLocal` is declared in package
`config`; the spec calls this backend the "local" one. -/
def BackendLocal : String := "local"

/-- Modelled from the spec: the constant `config.CheckpointDriverMySQL` is declared in
package `config`; the spec calls it the SQL driver, as opposed to the "file" driver. -/
def CheckpointDriverMySQL : String := "mysql"

/-- The Go type `mydump.MDTableMeta`, restricted to the fields read here. -/
structure MDTableMeta where
  Name : String
  TotalSize : Int
  deriving DecidableEq, Repr

/-- The Go type `mydump.MDDatabaseMeta`, restricted to the fields read here. -/
structure MDDatabaseMeta where
  Name : String
  Tables : List MDTableMeta
  deriving DecidableEq, Repr

/-! ## The task queue `config.ConfigList` -/

/-- Modelled from the spec: `config.ConfigList` is declared in package `config`.
The spec's TaskQueue is an ordered queue of pending task configs; `nodes` lists the
entries from head to tail. -/
structure ConfigList where
  nodes : List Config
  deriving DecidableEq, Repr

/-- Modelled from the spec: `config.NewConfigList` builds the empty queue. -/
def NewConfigList : ConfigList := ⟨[]⟩

/-- Modelled from the spec: `Push(cfg)` appends to the tail; the TaskID is minted at
push time from the clock (`now`, nanoseconds since the epoch) and written into `cfg`. -/
def ConfigList.Push (cl : ConfigList) (cfg : Config) (now : Int) : ConfigList × Config :=
  let cfg1 := { cfg with TaskID := now }
  (⟨cl.nodes ++ [cfg1]⟩, cfg1)

/-- Modelled from the spec: `Pop(ctx)` returns the context's error when `ctx` is
cancelled, removes and returns the head when there is one, and blocks (`none`)
otherwise. -/
def ConfigList.Pop (cl : ConfigList) (ctxDone : Bool) :
    Option (Except String (Config × ConfigList)) :=
  if ctxDone then some (.error "context canceled")
  else
    match cl.nodes with
    | [] => none
    | c :: rest => some (.ok (c, ⟨rest⟩))

/-- Modelled from the spec: `Get(id)` looks up the first entry with that id, without
mutation. -/
def ConfigList.Get (cl : ConfigList) (taskID : Int) : Option Config :=
  cl.nodes.find? (fun c => c.TaskID == taskID)

/-- Modelled from the spec: `AllIDs()` is the snapshot of ids in queue order. -/
def ConfigList.AllIDs (cl : ConfigList) : List Int :=
  cl.nodes.map (fun c => c.TaskID)

/-- Remove the first entry whose id is `taskID`. -/
def removeFirst (taskID : Int) : List Config → List Config
  | [] => []
  | c :: cs => if c.TaskID = taskID then cs else c :: removeFirst taskID cs

/-- Modelled from the spec: `Remove(id)` removes the first entry with matching id and
returns whether there was one. -/
def ConfigList.Remove (cl : ConfigList) (taskID : Int) : ConfigList × Bool :=
  match cl.Get taskID with
  | none => (cl, false)
  | some _ => (⟨removeFirst taskID cl.nodes⟩, true)

/-- Modelled from the spec: `MoveToFront(id)` moves the first matching entry to the
head and returns whether there was one. -/
def ConfigList.MoveToFront (cl : ConfigList) (taskID : Int) : ConfigList × Bool :=
  match cl.Get taskID with
  | none => (cl, false)
  | some c => (⟨c :: removeFirst taskID cl.nodes⟩, true)

/-- Modelled from the spec: `MoveToBack(id)` moves the first matching entry to the
tail and returns whether there was one. -/
def ConfigList.MoveToBack (cl : ConfigList) (taskID : Int) : ConfigList × Bool :=
  match cl.Get taskID with
  | none => (cl, false)
  | some c => (⟨removeFirst taskID cl.nodes ++ [c]⟩, true)

/-! ## HTTP requests and responses -/

/-- What a handler writes to the response body. -/
inductive Body where
  /-- the object written by `writeJSONError` -/
  | jsonError (msg : String)
  /-- the literal `{}` -/
  | emptyObject
  /-- the response of `handleGetTask` -/
  | taskList (current : Option Int) (queue : List Int)
  /-- the response of `handlePostTask` -/
  | taskID (id : Int)
  /-- bytes written as they are, or through the gzip writer -/
  | bytes (b : String) (gzipped : Bool)
  /-- the response of `GET /pause` -/
  | paused (b : Bool)
  /-- the response of `GET /loglevel` -/
  | logLevel (level : Int)
  /-- a JSON string, as written by the progress handlers on error -/
  | jsonString (s : String)
  deriving DecidableEq, Repr

/-- The Go interface `http.ResponseWriter`: the header map, the status code once it has
been written, and the body written so far. -/
structure ResponseWriter where
  header : List (String × String)
  status : Option Nat
  body : List Body
  deriving DecidableEq, Repr

/-- A fresh response writer. -/
def ResponseWriter.new : ResponseWriter := ⟨[], none, []⟩

/-- The Go call `w.Header().Set(k, v)`.  Once the status line has been written the
header map no longer reaches the client. -/
def ResponseWriter.Set (w : ResponseWriter) (k v : String) : ResponseWriter :=
  match w.status with
  | some _ => w
  | none => { w with header := (k, v) :: w.header.filter (fun p => p.1 != k) }

/-- The Go call `w.Header().Get(k)` on the headers sent. -/
def ResponseWriter.Get (w : ResponseWriter) (k : String) : Option String :=
  w.header.lookup k

/-- The Go call `w.WriteHeader(code)`; only the first call counts. -/
def ResponseWriter.WriteHeader (w : ResponseWriter) (code : Nat) : ResponseWriter :=
  match w.status with
  | some _ => w
  | none => { w with status := some code }

/-- The Go call `w.Write(b)`; writes status 200 first when no status was written. -/
def ResponseWriter.Write (w : ResponseWriter) (b : Body) : ResponseWriter :=
  let w1 := w.WriteHeader 200
  { w1 with body := w1.body ++ [b] }

/-- The Go type `http.Request`: method, URL path as the handler sees it (for
`handleTask`, after `http.StripPrefix("/tasks", ...)`), the `Accept-Encoding` header
and the result of reading the body. -/
structure Request where
  Method : String
  Path : String
  AcceptEncoding : String
  Body : Except String String
  deriving Repr

/-- The function `writeJSONError` (lightning.go:329). -/
def writeJSONError (w : ResponseWriter) (code : Nat) (pfx : String) (err : Option String) :
    ResponseWriter :=
  let w1 := w.WriteHeader code
  let msg := match err with
    | some e => pfx ++ ": " ++ e
    | none => pfx
  w1.Write (.jsonError msg)

/-- The text of a `strconv.NumError`, as `err.Error()` prints it. -/
def NumError.Error (e : NumError) : String :=
  "strconv." ++ e.Func ++ ": parsing " ++ e.Num.quote ++ ": " ++
    (match e.Err with
     | .ErrSyntax => "invalid syntax"
     | .ErrRange => "value out of range")

/-- The function `parseTaskID` (lightning.go:342), applied to `req.URL.Path`. -/
def parseTaskID (req : Request) : Except NumError (Int × String) :=
  let path := trimPrefixChars req.Path.data ['/']
  let i := indexByte path '/'
  let taskIDString := if 0 ≤ i then path.take i.toNat else path
  let verb := if 0 ≤ i then path.drop (i.toNat + 1) else []
  match ParseInt taskIDString with
  | .error e => .error e
  | .ok taskID => .ok (taskID, String.mk verb)

/-- The function `writeBytesCompressed` (lightning.go:541). -/
def writeBytesCompressed (w : ResponseWriter) (req : Request) (b : String) : ResponseWriter :=
  if !stringsContains req.AcceptEncoding.data "gzip".data then
    w.Write (.bytes b false)
  else
    let w1 := w.Set "Content-Encoding" "gzip"
    let w2 := w1.WriteHeader 200
    w2.Write (.bytes b true)

/-! ## The supervisor state -/

/-- A `context.CancelFunc` of a per-task context, identified by the number of the
context that `context.WithCancel` created. -/
abbrev CancelFunc := Nat

/-- The Go type `Lightning` (lightning.go:54): the fields the handlers and the run loop
read and write.  `ctxDone` says whether `l.ctx` has been cancelled by `l.shutdown`;
`serverDown` whether `l.server.Shutdown` has been called. -/
structure Lightning where
  taskCfgs : Option ConfigList
  ctxDone : Bool
  serverDown : Bool
  curTask : Option Config
  cancel : Option CancelFunc
  deriving DecidableEq, Repr

/-- The state built by `New` (lightning.go:74). -/
def New : Lightning :=
  { taskCfgs := none, ctxDone := false, serverDown := false, curTask := none, cancel := none }

/-- What serving one request does: the supervisor state afterwards, the response, and
the cancel functions that were invoked, in order. -/
structure Served where
  l : Lightning
  w : ResponseWriter
  invoked : List CancelFunc
  deriving DecidableEq, Repr

/-- The collaborators of package `config` and `encoding/json` that `handlePostTask` and
`handleGetOneTask` call, and the clock read by `Push`. -/
structure Env where
  /-- The result of `cfg := config.NewConfig(); cfg.LoadFromGlobal(l.globalCfg)`. -/
  loadFromGlobal : Except String Config
  /-- The call `cfg.LoadFromTOML(data)`. -/
  loadFromTOML : Config → String → Except String Config
  /-- The call `cfg.Adjust(l.ctx)`. -/
  adjust : Config → Except String Config
  /-- The call `json.Marshal(task)`. -/
  marshal : Config → Except String String
  /-- The value of `time.Now().UnixNano()` at the time of `Push`. -/
  now : Int

/-- The method `handleGetTask` (lightning.go:384). -/
def handleGetTask (l : Lightning) (w : ResponseWriter) : ResponseWriter :=
  let queuedIDs := match l.taskCfgs with
    | some q => q.AllIDs
    | none => []
  let current := match l.cancel, l.curTask with
    | some _, some t => some t.TaskID
    | _, _ => none
  (w.WriteHeader 200).Write (.taskList current queuedIDs)

/-- The method `handleGetOneTask` (lightning.go:407). -/
def handleGetOneTask (env : Env) (l : Lightning) (w : ResponseWriter) (req : Request)
    (taskID : Int) : ResponseWriter :=
  let task0 : Option Config := match l.curTask with
    | some t => if t.TaskID = taskID then some t else none
    | none => none
  let task : Option Config := match task0, l.taskCfgs with
    | none, some q => q.Get taskID
    | t, _ => t
  match task with
  | none => writeJSONError w 404 "task ID not found" none
  | some t =>
    match env.marshal t with
    | .error e => writeJSONError w 500 "unable to serialize task" (some e)
    | .ok json => writeBytesCompressed w req json

/-- The method `handlePostTask` (lightning.go:434). -/
def handlePostTask (env : Env) (l : Lightning) (w : ResponseWriter) (req : Request) : Served :=
  let w := w.Set "Cache-Control" "no-store"
  match l.taskCfgs with
  | none => ⟨l, writeJSONError w 501 "server-mode not enabled" none, []⟩
  | some q =>
    match req.Body with
    | .error e => ⟨l, writeJSONError w 400 "cannot read request" (some e), []⟩
    | .ok data =>
      match env.loadFromGlobal with
      | .error e => ⟨l, writeJSONError w 500 "cannot restore from global config" (some e), []⟩
      | .ok cfg0 =>
        match env.loadFromTOML cfg0 data with
        | .error e => ⟨l, writeJSONError w 400 "cannot parse task (must be TOML)" (some e), []⟩
        | .ok cfg1 =>
          match env.adjust cfg1 with
          | .error e => ⟨l, writeJSONError w 400 "invalid task configuration" (some e), []⟩
          | .ok cfg2 =>
            let pushed := q.Push cfg2 env.now
            ⟨{ l with taskCfgs := some pushed.1 },
              (w.WriteHeader 200).Write (.taskID pushed.2.TaskID), []⟩

/-- The critical section of `handleDeleteOneTask` (lightning.go:486-491): under
`cancelLock`, take the cancel function out of the registry when the current task has
the requested id. -/
def takeCancel (l : Lightning) (taskID : Int) : Option CancelFunc × Lightning :=
  match l.cancel, l.curTask with
  | some c, some t =>
    if t.TaskID = taskID then (some c, { l with cancel := none }) else (none, l)
  | _, _ => (none, l)

/-- The branch of `handleDeleteOneTask` after the critical section (lightning.go:493-498):
the state afterwards, `cancelSuccess`, and the cancel functions invoked. -/
def cancelOrRemove (cancel : Option CancelFunc) (l : Lightning) (taskID : Int) :
    Lightning × Bool × List CancelFunc :=
  match cancel with
  | some c => (l, true, [c])
  | none =>
    match l.taskCfgs with
    | some q => ({ l with taskCfgs := some (q.Remove taskID).1 }, (q.Remove taskID).2, [])
    | none => (l, false, [])

/-- The method `handleDeleteOneTask` (lightning.go:474). -/
def handleDeleteOneTask (l : Lightning) (w : ResponseWriter) (req : Request) : Served :=
  let w := w.Set "Content-Type" "application/json"
  match parseTaskID req with
  | .error e => ⟨l, writeJSONError w 400 "invalid task ID" (some e.Error), []⟩
  | .ok (taskID, _) =>
    let taken := takeCancel l taskID
    let done := cancelOrRemove taken.1 taken.2 taskID
    if done.2.1 then
      ⟨done.1, (w.WriteHeader 200).Write .emptyObject, done.2.2⟩
    else
      ⟨done.1, writeJSONError w 404 "task ID not found" none, done.2.2⟩

/-- The method `handlePatchOneTask` (lightning.go:510). -/
def handlePatchOneTask (l : Lightning) (w : ResponseWriter) (req : Request) : Served :=
  match l.taskCfgs with
  | none => ⟨l, writeJSONError w 501 "server-mode not enabled" none, []⟩
  | some q =>
    match parseTaskID req with
    | .error e => ⟨l, writeJSONError w 400 "invalid task ID" (some e.Error), []⟩
    | .ok (taskID, verb) =>
      let moved : Option (ConfigList × Bool) :=
        if verb = "front" then some (q.MoveToFront taskID)
        else if verb = "back" then some (q.MoveToBack taskID)
        else none
      match moved with
      | none => ⟨l, writeJSONError w 400 "unknown patch action" none, []⟩
      | some (q1, moveSuccess) =>
        if moveSuccess then
          ⟨{ l with taskCfgs := some q1 }, (w.WriteHeader 200).Write .emptyObject, []⟩
        else
          ⟨{ l with taskCfgs := some q1 }, writeJSONError w 404 "task ID not found" none, []⟩

/-- The method `handleTask` (lightning.go:359), mounted on `/tasks` and `/tasks/`. -/
def handleTask (env : Env) (l : Lightning) (w : ResponseWriter) (req : Request) : Served :=
  let w := w.Set "Content-Type" "application/json"
  if req.Method = "GET" then
    match parseTaskID req with
    | .error e =>
      if e.Num = "" then ⟨l, handleGetTask l w, []⟩
      else ⟨l, writeJSONError w 400 "invalid task ID" (some e.Error), []⟩
    | .ok (taskID, _) => ⟨l, handleGetOneTask env l w req taskID, []⟩
  else if req.Method = "POST" then handlePostTask env l w req
  else if req.Method = "DELETE" then handleDeleteOneTask l w req
  else if req.Method = "PATCH" then handlePatchOneTask l w req
  else
    let w1 := w.Set "Allow" ("GET" ++ ", " ++ "POST" ++ ", " ++ "DELETE" ++ ", " ++ "PATCH")
    ⟨l, writeJSONError w1 405 "only GET, POST, DELETE and PATCH are allowed" none, []⟩

/-- TaskIDs are unique across the queue and the in-flight task: no two queue entries
share an id, and the id of the task whose cancel function is registered is not queued. -/
def UniqueTaskIDs (l : Lightning) : Prop :=
  match l.taskCfgs with
  | none => True
  | some q =>
    q.AllIDs.Nodup ∧
      match l.cancel, l.curTask with
      | some _, some t => t.TaskID ∉ q.AllIDs
      | _, _ => True

/-- A task configuration with the given id, for concrete runs. -/
def sampleConfig (id : Int) : Config :=
  ⟨id, ⟨true, 2, 16⟩, ⟨"local", 8⟩, ⟨true, "mysql", "tidb_lightning_checkpoint"⟩⟩

/-- Collaborators that always succeed, for concrete runs. -/
def sampleEnv : Env :=
  { loadFromGlobal := .ok (sampleConfig 0)
    loadFromTOML := fun c _ => .ok c
    adjust := fun c => .ok c
    marshal := fun _ => .ok "task-config-json"
    now := 1000 }

/-- A request with the given method and path, empty body and no accepted encodings. -/
def sampleRequest (method path : String) : Request :=
  ⟨method, path, "", .ok ""⟩

/-! ## The process-wide pause gate and log level -/

/-- The process-wide state the handlers of `/pause`, `/resume` and `/loglevel` touch:
`restore.DeliverPauser` and the level of the global logger (a `zapcore.Level`). -/
structure Globals where
  paused : Bool
  logLevel : Int
  deriving DecidableEq, Repr

/-- The constant `zapcore.InfoLevel`. -/
def InfoLevel : Int := 0

/-- The function `handlePause` (lightning.go:581). -/
def handlePause (g : Globals) (w : ResponseWriter) (req : Request) : Globals × ResponseWriter :=
  let w := w.Set "Content-Type" "application/json"
  if req.Method = "GET" then
    (g, (w.WriteHeader 200).Write (.paused g.paused))
  else if req.Method = "PUT" then
    ({ g with paused := true }, (w.WriteHeader 200).Write .emptyObject)
  else
    let w1 := w.Set "Allow" ("GET" ++ ", " ++ "PUT")
    (g, writeJSONError w1 405 "only GET and PUT are allowed" none)

/-- The function `handleResume` (lightning.go:601). -/
def handleResume (g : Globals) (w : ResponseWriter) (req : Request) : Globals × ResponseWriter :=
  let w := w.Set "Content-Type" "application/json"
  if req.Method = "PUT" then
    ({ g with paused := false }, (w.WriteHeader 200).Write .emptyObject)
  else
    let w1 := w.Set "Allow" "PUT"
    (g, writeJSONError w1 405 "only PUT is allowed" none)

/-- The function `handleLogLevel` (lightning.go:617); `decode` stands for
`json.NewDecoder(req.Body).Decode(&logLevel)`. -/
def handleLogLevel (decode : Except String String → Except String Int) (g : Globals)
    (w : ResponseWriter) (req : Request) : Globals × ResponseWriter :=
  let w := w.Set "Content-Type" "application/json"
  if req.Method = "GET" then
    (g, (w.WriteHeader 200).Write (.logLevel g.logLevel))
  else if req.Method = "PUT" ∨ req.Method = "POST" then
    match decode req.Body with
    | .error e => (g, writeJSONError w 400 "invalid log level" (some e))
    | .ok level =>
      -- `log.SetLevel(zapcore.InfoLevel)`, a log line, then `log.SetLevel(logLevel.Level)`
      let g1 := { g with logLevel := InfoLevel }
      let g2 := { g1 with logLevel := level }
      (g2, (w.WriteHeader 200).Write .emptyObject)
  else
    let w1 := w.Set "Allow" ("GET" ++ ", " ++ "PUT" ++ ", " ++ "POST")
    (g, writeJSONError w1 405 "only GET, PUT and POST are allowed" none)

/-! ## Pre-flight checks -/

/-- A Go `int64` result after overflow: two's complement wrap-around. -/
def wrapInt64 (x : Int) : Int := (x + 2 ^ 63) % 2 ^ 64 - 2 ^ 63

/-- The Go conversion `uint64(x)` of a signed 64-bit value. -/
def toUint64 (x : Int) : Nat := (x % 2 ^ 64).toNat

/-- What a Go function of result type `error` does: it returns (`nil` or an error) or
it panics. -/
inductive GoResult where
  | returned (err : Option String)
  | panicked (msg : String)
  deriving DecidableEq, Repr

/-- The list `tableTotalSizes` built by the two nested loops (lightning.go:656-661). -/
def tableTotalSizes : List MDDatabaseMeta → List Int
  | [] => []
  | dbs :: rest => dbs.Tables.map (fun tb => tb.TotalSize) ++ tableTotalSizes rest

/-- The call `sort.Slice` with the comparison `sizes[i] > sizes[j]` (lightning.go:662):
the list in descending order. -/
def sortDescending (sizes : List Int) : List Int :=
  sizes.insertionSort (fun a b => a ≥ b)

/-- The summing loop (lightning.go:665-668), from index `i` with the rest of the slice
and the accumulator `topNTotalSize`. -/
def sumTopLoop (tableConcurrency : Int) : Nat → List Int → Int → Int
  | _, [], acc => acc
  | i, x :: xs, acc =>
    if (i : Int) < tableConcurrency then
      sumTopLoop tableConcurrency (i + 1) xs (wrapInt64 (acc + x))
    else acc

/-- The value of `topNTotalSize` after the loop (lightning.go:656-668). -/
def topNTotalSize (cfg : Config) (dbsMeta : List MDDatabaseMeta) : Int :=
  sumTopLoop cfg.App.TableConcurrency 0 (sortDescending (tableTotalSizes dbsMeta)) 0

/-- The expression assigned to `estimateMaxFiles` (lightning.go:672), in `uint64`
arithmetic; the divisor is not zero. -/
def estimateMaxFiles (regionConcurrency topN engineMemCacheSize : Int) : Nat :=
  (toUint64 regionConcurrency +
    (toUint64 topN / toUint64 engineMemCacheSize * 2) % 2 ^ 64) % 2 ^ 64

/-- The function `checkSystemRequirement` (lightning.go:647); `VerifyRLimit` stands for
`local.VerifyRLimit`. -/
def checkSystemRequirement (VerifyRLimit : Nat → Option String) (cfg : Config)
    (dbsMeta : List MDDatabaseMeta) : GoResult :=
  if !cfg.App.CheckRequirements then .returned none
  else if cfg.TikvImporter.Backend = BackendLocal then
    let topN := topNTotalSize cfg dbsMeta
    if toUint64 cfg.TikvImporter.EngineMemCacheSize = 0 then
      .panicked "runtime error: integer divide by zero"
    else
      .returned (VerifyRLimit
        (estimateMaxFiles cfg.App.RegionConcurrency topN cfg.TikvImporter.EngineMemCacheSize))
  else .returned none

/-- The message built by `errors.Errorf` in `checkSchemaConflict`. -/
def conflictMessage (dbName tbName : String) : String :=
  "checkpoint table `" ++ dbName ++ "`.`" ++ tbName ++ "` conflict with data files. " ++
    "Please change the `checkpoint.schema` config or set `checkpoint.driver` to \"file\" instead"

/-- The inner loop of `checkSchemaConflict` over `db.Tables` (lightning.go:686-690). -/
def conflictInTables (IsCheckpointTable : String → Bool) (dbName : String) :
    List MDTableMeta → Option String
  | [] => none
  | tb :: tbs =>
    if IsCheckpointTable tb.Name then some (conflictMessage dbName tb.Name)
    else conflictInTables IsCheckpointTable dbName tbs

/-- The outer loop of `checkSchemaConflict` over `dbsMeta` (lightning.go:684-692). -/
def conflictInDatabases (IsCheckpointTable : String → Bool) (schema : String) :
    List MDDatabaseMeta → Option String
  | [] => none
  | db :: dbs =>
    if db.Name = schema then
      match conflictInTables IsCheckpointTable db.Name db.Tables with
      | some e => some e
      | none => conflictInDatabases IsCheckpointTable schema dbs
    else conflictInDatabases IsCheckpointTable schema dbs

/-- The function `checkSchemaConflict` (lightning.go:682); `IsCheckpointTable` stands
for `checkpoints.IsCheckpointTable`.  The result is the returned error, if any. -/
def checkSchemaConflict (IsCheckpointTable : String → Bool) (cfg : Config)
    (dbsMeta : List MDDatabaseMeta) : Option String :=
  if cfg.Checkpoint.Enable && cfg.Checkpoint.Driver == CheckpointDriverMySQL then
    conflictInDatabases IsCheckpointTable cfg.Checkpoint.Schema dbsMeta
  else none

/-! ## Running tasks and stopping -/

/-- The start of `run` (lightning.go:222-226): the child context has been derived and
its cancel function and the task are registered under `cancelLock`. -/
def runRegister (l : Lightning) (taskCfg : Config) (cancel : CancelFunc) : Lightning :=
  { l with cancel := some cancel, curTask := some taskCfg }

/-- The deferred function of `run` (lightning.go:229-235), after its call of `cancel()`:
under `cancelLock`, `l.cancel = nil`. -/
def runDeferred (l : Lightning) : Lightning :=
  { l with cancel := none }

/-- The method `Stop` (lightning.go:317): the state afterwards and the cancel functions
invoked. -/
def Stop (l : Lightning) : Lightning × List CancelFunc :=
  let invoked := match l.cancel with
    | some c => [c]
    | none => []
  ({ l with serverDown := true, ctxDone := true }, invoked)

/-- One activation of `run`: the task, the cancel function of its context, whether
`RunServer` called it, and whether `handleDeleteOneTask` has taken its cancel function
out of the registry. -/
structure RunFrame where
  taskCfg : Config
  cancel : CancelFunc
  server : Bool
  deleted : Bool
  deriving DecidableEq, Repr

/-- The supervisor together with what surrounds it: the activation of `run` that has
registered and not yet executed its deferred cleanup, the per-task contexts cancelled so
far, the number of the next context, whether `Stop` has returned, whether `RunServer`
has returned, the pause gate and log level, and the ids of the tasks whose `run` has
returned. -/
structure Supervisor where
  l : Lightning
  running : Option RunFrame
  cancelled : List CancelFunc
  nextCtx : Nat
  stopped : Bool
  serverReturned : Bool
  globals : Globals
  finished : List Int
  deriving DecidableEq, Repr

/-- The system right after `New`. -/
def Supervisor.init : Supervisor :=
  { l := New, running := none, cancelled := [], nextCtx := 0, stopped := false,
    serverReturned := false, globals := ⟨false, InfoLevel⟩, finished := [] }

/-- The steps of the supervisor. -/
inductive Event where
  /-- The start of `RunServer`: it builds the queue (lightning.go:195). -/
  | runServerStart
  /-- one iteration of the loop of `RunServer`: `Pop(l.ctx)`, then either the return of
  `RunServer` or the call of `run` up to its registration -/
  | runServerIter
  /-- The call `RunOnce(context.Background(), cfg, nil)`: `Adjust` (its result is the argument),
  the TaskID from the clock, then `run` up to its registration -/
  | runOnce (adjusted : Except String Config) (now : Int)
  /-- the task ends: the deferred cleanup of `run` executes and `run` returns `err`; in
  `RunServer` an error pauses the gate -/
  | taskEnd (err : Option String)
  /-- The method `Stop` is called and returns. -/
  | stop
  /-- a request to `/tasks` or `/tasks/...` is served by `handleTask` -/
  | http (env : Env) (req : Request)

/-- Register a new activation of `run` with a fresh per-task context. -/
def Supervisor.startRun (s : Supervisor) (taskCfg : Config) (server : Bool) : Supervisor :=
  { s with
    l := runRegister s.l taskCfg s.nextCtx
    running := some ⟨taskCfg, s.nextCtx, server, false⟩
    nextCtx := s.nextCtx + 1 }

/-- One step of the supervisor; `none` when the step cannot be taken in this state
(the supervising thread runs one activation of `run` at a time, `RunServer` is entered
once, and a `Pop` on an empty queue blocks). -/
def Supervisor.step (s : Supervisor) : Event → Option Supervisor
  | .runServerStart =>
    match s.running, s.l.taskCfgs with
    | none, none => some { s with l := { s.l with taskCfgs := some NewConfigList } }
    | _, _ => none
  | .runServerIter =>
    match s.running, s.l.taskCfgs, s.serverReturned with
    | none, some q, false =>
      match q.Pop s.l.ctxDone with
      | none => none
      | some (.error _) => some { s with serverReturned := true }
      | some (.ok (task, rest)) =>
        some (Supervisor.startRun { s with l := { s.l with taskCfgs := some rest } } task true)
    | _, _, _ => none
  | .runOnce adjusted now =>
    match s.running with
    | some _ => none
    | none =>
      match adjusted with
      | .error _ => some s
      | .ok taskCfg => some (Supervisor.startRun s { taskCfg with TaskID := now } false)
  | .taskEnd err =>
    match s.running with
    | none => none
    | some f =>
      some { s with
        l := runDeferred s.l
        running := none
        cancelled := f.cancel :: s.cancelled
        finished := f.taskCfg.TaskID :: s.finished
        globals := { s.globals with paused := s.globals.paused || (f.server && err.isSome) } }
  | .stop =>
    some { s with l := (Stop s.l).1, cancelled := (Stop s.l).2 ++ s.cancelled, stopped := true }
  | .http env req =>
    let served := handleTask env s.l .new req
    some { s with
      l := served.l
      cancelled := served.invoked ++ s.cancelled
      running := match s.running with
        | some f => some { f with deleted := f.deleted || !served.invoked.isEmpty }
        | none => none }

/-- Run a list of steps, in order. -/
def Supervisor.exec (s : Supervisor) : List Event → Option Supervisor
  | [] => some s
  | e :: es =>
    match s.step e with
    | none => none
    | some s1 => Supervisor.exec s1 es

/-- The states the supervisor can be in: those some run of steps reaches from `New`. -/
def Reachable (s : Supervisor) : Prop := ∃ es : List Event, Supervisor.init.exec es = some s

/-- The `current` field of the response of `GET /tasks` in state `l`. -/
def currentOf (l : Lightning) : Option Int :=
  match (handleGetTask l .new).body with
  | [.taskList current _] => current
  | _ => none

/-- The task in flight: the one whose `run` has registered and has not yet executed its
deferred cleanup. -/
def Supervisor.inFlight (s : Supervisor) : Option Int :=
  s.running.map (fun f => f.taskCfg.TaskID)

/-- The registry agrees with the activation of `run`: with no activation there is no
cancel function; with one, `curTask` is its task and its cancel function is registered
unless a DELETE has taken it. -/
def RegistryInv (s : Supervisor) : Prop :=
  match s.running with
  | none => s.l.cancel = none
  | some f =>
    s.l.curTask = some f.taskCfg ∧
      (f.deleted = false → s.l.cancel = some f.cancel) ∧
      (f.deleted = true → s.l.cancel = none)

/-! ## The command `tidb-lightning` -/

/-- What `main` shows to the outside: the exit code of the process and the lines on
standard error and standard output. -/
structure MainResult where
  exitCode : Nat
  stderr : List String
  stdout : List String
  deriving DecidableEq, Repr

/-- The results of the calls `main` makes: `app.GoServe()`, `app.RunServer()`,
`cfg.LoadFromGlobal(globalCfg)`, `app.RunOnce(...)` and `logger.Sync()` (each the error
returned, `none` for `nil`), with the two settings of the global config `main` reads. -/
structure MainCalls where
  serverMode : Bool
  logFile : String
  goServe : Option String
  runServer : Option String
  loadFromGlobal : Option String
  runOnce : Option String
  sync : Option String
  deriving DecidableEq, Repr

/-- The error of the function literal in `main` (main.go:78-87). -/
def mainTaskErr (c : MainCalls) : Option String :=
  if c.serverMode then c.runServer
  else
    match c.loadFromGlobal with
    | some e => some e
    | none => c.runOnce

/-- The function `main` (main.go:31), from the call of `GoServe` on.  Returning from
`main` ends the process with exit code 0; `exit(1)` ends it with exit code 1. -/
def main (c : MainCalls) : MainResult :=
  let banner := "Verbose debug logs will be written to " ++ c.logFile ++ "\n"
  match c.goServe with
  | some e => ⟨0, ["failed to start HTTP server: " ++ e], [banner]⟩
  | none =>
    let err := mainTaskErr c
    let out1 : List String × List String := match err with
      | some e => (["tidb lightning encountered error:  " ++ e], [banner])
      | none => ([], [banner, "tidb lightning exit"])
    let errs2 : List String :=
      if c.logFile ≠ "" then
        match c.sync with
        | some e => out1.1 ++ ["sync log failed " ++ e]
        | none => out1.1
      else out1.1
    match err with
    | some _ => ⟨1, errs2, out1.2⟩
    | none => ⟨0, errs2, out1.2⟩

/-! ## The progress handlers -/

/-- The function `handleProgressTask` (lightning.go:554); `marshalTaskProgress` is the
result of `web.MarshalTaskProgress()`. -/
def handleProgressTask (marshalTaskProgress : Except String String) (w : ResponseWriter)
    (req : Request) : ResponseWriter :=
  let w := w.Set "Content-Type" "application/json"
  match marshalTaskProgress with
  | .ok res => writeBytesCompressed w req res
  | .error e => (w.WriteHeader 500).Write (.jsonString e)

/-- The function `handleProgressTable` (lightning.go:565); `marshalTableCheckpoints` is
the result of `web.MarshalTableCheckpoints(tableName)` for the query parameter `t`, an
error coming with the answer of `errors.IsNotFound`. -/
def handleProgressTable (marshalTableCheckpoints : Except (String × Bool) String)
    (w : ResponseWriter) (req : Request) : ResponseWriter :=
  let w := w.Set "Content-Type" "application/json"
  match marshalTableCheckpoints with
  | .ok res => writeBytesCompressed w req res
  | .error (e, isNotFound) =>
    if isNotFound then (w.WriteHeader 404).Write (.jsonString e)
    else (w.WriteHeader 500).Write (.jsonString e)

/-! ## Decimal numerals -/

/-- The id-string of a request: `taskIDString` in `parseTaskID`, the path without its
leading `/`, up to its first `/`. -/
def taskIDStringOf (req : Request) : List Char :=
  let path := trimPrefixChars req.Path.data ['/']
  let i := indexByte path '/'
  if 0 ≤ i then path.take i.toNat else path

/-- The decimal digit for a number below ten. -/
def digitChar (k : Nat) : Char := Char.ofNat ('0'.toNat + k)

/-- The decimal digits of `n`, most significant first, by repeated division; `fuel`
bounds the number of digits. -/
def decimalDigits : Nat → Nat → List Char
  | 0, _ => []
  | fuel + 1, n =>
    if n < 10 then [digitChar n]
    else decimalDigits fuel (n / 10) ++ [digitChar (n % 10)]

/-- The decimal numeral of a natural number, as `strconv.FormatUint(n, 10)` writes it. -/
def FormatUint (n : Nat) : List Char := decimalDigits (n + 1) n

/-- The decimal numeral of an integer, as `strconv.FormatInt(n, 10)` writes it. -/
def FormatInt (n : Int) : List Char :=
  if n < 0 then '-' :: FormatUint n.natAbs else FormatUint n.toNat

/-- The value of a decimal digit. -/
def digitValue (c : Char) : Nat := c.toNat - '0'.toNat

/-- The number a string of decimal digits denotes. -/
def decimalValue (ds : List Char) : Nat :=
  ds.foldl (fun a c => a * 10 + digitValue c) 0

/-- A non-empty string of decimal digits. -/
def IsDigits (ds : List Char) : Prop := ds ≠ [] ∧ ∀ c ∈ ds, c.isDigit = true

/-- The string without its sign, if it starts with one. -/
def unsignedPart : List Char → List Char
  | [] => []
  | c :: rest => if c = '+' ∨ c = '-' then rest else c :: rest

/-- Whether the string starts with a minus sign. -/
def hasMinus : List Char → Bool
  | [] => false
  | c :: _ => c == '-'

/-- In the words of the spec: the string is a base-10 integer in the signed 64-bit
range, that is an optional sign followed by one or more decimal digits whose value lies
between `-2^63` and `2^63 - 1`. -/
def IsInt64Decimal (s : List Char) : Prop :=
  IsDigits (unsignedPart s) ∧
    if hasMinus s then decimalValue (unsignedPart s) ≤ 2 ^ 63
    else decimalValue (unsignedPart s) < 2 ^ 63

/-- The integer a signed decimal string denotes. -/
def int64DecimalValue (s : List Char) : Int :=
  if hasMinus s then -(decimalValue (unsignedPart s) : Int)
  else (decimalValue (unsignedPart s) : Int)

/-- The response is the collection listing: status 200 with the object
`{current, queue}` as its body. -/
def IsTaskListing (w : ResponseWriter) : Prop :=
  w.status = some 200 ∧ ∃ current queue, w.body = [Body.taskList current queue]

instance (ds : List Char) : Decidable (IsDigits ds) := by
  unfold IsDigits
  exact inferInstance

instance (s : List Char) : Decidable (IsInt64Decimal s) := by
  unfold IsInt64Decimal
  exact inferInstance

/-! ## The function `run`, path by path -/

/-- What `run` does to the outside, in the order in which it happens. -/
inductive RunEffect where
  /-- the call `web.BroadcastStartTask()` -/
  | broadcastStart
  /-- the call `web.BroadcastInitProgress(dbMetas)` -/
  | broadcastInit (dbMetas : List MDDatabaseMeta)
  /-- the deferred call `procedure.Close()` -/
  | closeProcedure
  /-- the deferred function that deregisters the TLS config (lightning.go:251-258) -/
  | deregisterTLS
  /-- the call of the per-task cancel function in the first deferred function -/
  | cancel (c : CancelFunc)
  /-- the call `web.BroadcastEndTask(err)` in the first deferred function -/
  | broadcastEnd (err : Option String)
  deriving DecidableEq, Repr

/-- The results of the calls `run` makes, each the error returned (`none` for `nil`):
the failpoint `SkipRunTask` (`none` when it is off, otherwise the value it returns),
`RegisterMySQL`, whether a glue was supplied, `restore.DBFromConfig`,
`storage.ParseBackend`, `storage.New`, the dump loader with the databases it found,
`local.VerifyRLimit`, `checkpoints.IsCheckpointTable`, `restore.NewRestoreController`
and `procedure.Run`. -/
structure RunCalls where
  skipRunTask : Option (Option String)
  registerMySQL : Option String
  glueSupplied : Bool
  dbFromConfig : Option String
  parseBackend : Option String
  storageNew : Option String
  loader : Except String (List MDDatabaseMeta)
  verifyRLimit : Nat → Option String
  isCheckpointTable : String → Bool
  newRestoreController : Option String
  procedureRun : Option String

/-- The message of `errors.Annotate(err, msg)`. -/
def annotate (err msg : String) : String := msg ++ ": " ++ err

/-- The body of `run` once the TLS config is registered (lightning.go:262-314): the
outcome and the effects, the deferred `procedure.Close()` included.  `errors.Trace`
keeps the error and adds a stack. -/
def runAfterTLS (calls : RunCalls) (taskCfg : Config) : GoResult × List RunEffect :=
  match (if calls.glueSupplied then none else calls.dbFromConfig) with
  | some e => (.returned (some e), [])
  | none =>
    match calls.parseBackend with
    | some e => (.returned (some (annotate e "parse backend failed")), [])
    | none =>
      match calls.storageNew with
      | some e => (.returned (some (annotate e "create storage failed")), [])
      | none =>
        match calls.loader with
        | .error e => (.returned (some e), [])
        | .ok dbMetas =>
          match checkSystemRequirement calls.verifyRLimit taskCfg dbMetas with
          | .panicked msg => (.panicked msg, [])
          | .returned (some e) => (.returned (some e), [])
          | .returned none =>
            match checkSchemaConflict calls.isCheckpointTable taskCfg dbMetas with
            | some e => (.returned (some e), [])
            | none =>
              match calls.newRestoreController with
              | some e => (.returned (some e), [.broadcastInit dbMetas])
              | none =>
                (.returned calls.procedureRun, [.broadcastInit dbMetas, .closeProcedure])

/-- The body of `run` between the registration and the first deferred function
(lightning.go:237-314), with the deferred TLS deregistration. -/
def runBody (calls : RunCalls) (taskCfg : Config) : GoResult × List RunEffect :=
  match calls.skipRunTask with
  | some r => (.returned r, [])
  | none =>
    match calls.registerMySQL with
    | some e => (.returned (some e), [])
    | none =>
      ((runAfterTLS calls taskCfg).1, (runAfterTLS calls taskCfg).2 ++ [.deregisterTLS])

/-- The value of the named result `err` when the first deferred function runs: the
error being returned, or `nil` when the body panicked before assigning one. -/
def errAtExit : GoResult → Option String
  | .returned e => e
  | .panicked _ => none

/-- What one call of `run` leaves behind: the supervisor state, the outcome, and the
effects in order. -/
structure RunResult where
  l : Lightning
  outcome : GoResult
  effects : List RunEffect

/-- The method `run` (lightning.go:216): registration, the body, and the first deferred
function (`cancel()`, `l.cancel = nil`, `web.BroadcastEndTask(err)`).  `served` is what
the requests served while the task ran did to the supervisor state. -/
def run (l : Lightning) (taskCfg : Config) (cancel : CancelFunc) (calls : RunCalls)
    (served : Lightning → Lightning) : RunResult :=
  let l1 := runRegister l taskCfg cancel
  let body := runBody calls taskCfg
  let l2 := served l1
  { l := runDeferred l2
    outcome := body.1
    effects := [.broadcastStart] ++ body.2 ++ [.cancel cancel, .broadcastEnd (errAtExit body.1)] }

/-! ## The loop of `RunServer` -/

/-- What the loop of `RunServer` does, in order. -/
inductive ServerAction where
  /-- the call `l.run(context.Background(), task, nil)` -/
  | ran (task : Config)
  /-- the call `restore.DeliverPauser.Pause()` -/
  | paused
  deriving DecidableEq, Repr

/-- What `RunServer` leaves behind: the error it returned (`none` while it is blocked in
`Pop`), its actions in order, and the pause gate and log level. -/
structure ServerRun where
  returned : Option String
  actions : List ServerAction
  globals : Globals
  deriving DecidableEq, Repr

/-- The loop of `RunServer` (lightning.go:201-211) over the results of the successive
calls of `Pop`: an error, or a task together with the error its `run` returns. -/
def runServerLoop (g : Globals) : List (Except String (Config × Option String)) → ServerRun
  | [] => ⟨none, [], g⟩
  | .error e :: _ => ⟨some e, [], g⟩
  | .ok (task, err) :: rest =>
    match err with
    | some _ =>
      let r := runServerLoop { g with paused := true } rest
      ⟨r.returned, .ran task :: .paused :: r.actions, r.globals⟩
    | none =>
      let r := runServerLoop g rest
      ⟨r.returned, .ran task :: r.actions, r.globals⟩

/-- The method `RunServer` (lightning.go:194): the queue is built, then the loop runs. -/
def RunServer (l : Lightning) (g : Globals)
    (pops : List (Except String (Config × Option String))) : Lightning × ServerRun :=
  ({ l with taskCfgs := some NewConfigList }, runServerLoop g pops)

/-- The tasks run, in order. -/
def tasksRun : List ServerAction → List Config
  | [] => []
  | .ran task :: rest => task :: tasksRun rest
  | .paused :: rest => tasksRun rest

/-- The actions the spec asks for one dequeued task: run it, and pause when it failed. -/
def actionsFor (t : Config × Option String) : List ServerAction :=
  if t.2.isSome then [.ran t.1, .paused] else [.ran t.1]

/-- The actions the spec asks for a sequence of dequeued tasks. -/
def expectedActions : List (Config × Option String) → List ServerAction
  | [] => []
  | t :: ts => actionsFor t ++ expectedActions ts

/-! ## The sum of the largest tables -/

/-- In the words of the spec: `v` is the sum of the `k` largest values of `sizes`, that
is the maximum sum of a sub-multiset of `sizes` with `k` elements. -/
def IsTopSum (sizes : List Int) (k : Nat) (v : Int) : Prop :=
  (∃ t : Multiset Int, t ≤ (sizes : Multiset Int) ∧ Multiset.card t = k ∧ t.sum = v) ∧
  ∀ t : Multiset Int, t ≤ (sizes : Multiset Int) → Multiset.card t = k → t.sum ≤ v

/-! ## Facts about the queue model -/

theorem get_eq_none_iff (q : ConfigList) (id : Int) : q.Get id = none ↔ id ∉ q.AllIDs := by
  simp only [ConfigList.Get, ConfigList.AllIDs, List.find?_eq_none, List.mem_map, not_exists,
    not_and, beq_iff_eq]

theorem removeFirst_ids (id : Int) (nodes : List Config) :
    (removeFirst id nodes).map (fun c => c.TaskID) = (nodes.map (fun c => c.TaskID)).erase id := by
  induction nodes with
  | nil => rfl
  | cons c cs ih =>
    by_cases h : c.TaskID = id
    · simp [removeFirst, h]
    · simp [removeFirst, h, List.erase_cons_tail, ih]

theorem remove_allIDs (q : ConfigList) (id : Int) :
    (q.Remove id).1.AllIDs = q.AllIDs.erase id := by
  unfold ConfigList.Remove
  cases hg : q.Get id with
  | none =>
    have hn : id ∉ q.AllIDs := (get_eq_none_iff q id).1 hg
    simp [List.erase_of_not_mem hn]
  | some c => simp [ConfigList.AllIDs, removeFirst_ids]

theorem remove_true_iff (q : ConfigList) (id : Int) : (q.Remove id).2 = true ↔ id ∈ q.AllIDs := by
  unfold ConfigList.Remove
  cases hg : q.Get id with
  | none =>
    have hn : id ∉ q.AllIDs := (get_eq_none_iff q id).1 hg
    simp [hn]
  | some c =>
    have hm : id ∈ q.AllIDs := by
      by_contra hn
      rw [(get_eq_none_iff q id).2 hn] at hg
      cases hg
    simp [hm]

theorem remove_twice_false (q : ConfigList) (id : Int) (hnd : q.AllIDs.Nodup) :
    ((q.Remove id).1.Remove id).2 = false := by
  have hnot : id ∉ (q.Remove id).1.AllIDs := by
    rw [remove_allIDs]
    intro hmem
    exact ((List.Nodup.mem_erase_iff hnd).1 hmem).1 rfl
  cases hb : ((q.Remove id).1.Remove id).2 with
  | false => rfl
  | true => exact absurd ((remove_true_iff _ id).1 hb) hnot

/-! ## Deleting a task over HTTP -/

theorem takeCancel_none_of_not_inflight (l : Lightning) (id : Int)
    (hnot : ¬ (∃ c t, l.cancel = some c ∧ l.curTask = some t ∧ t.TaskID = id)) :
    takeCancel l id = (none, l) := by
  unfold takeCancel
  cases hc : l.cancel with
  | none => rfl
  | some c =>
    cases ht : l.curTask with
    | none => rfl
    | some t =>
      have hne : ¬ t.TaskID = id := fun h => hnot ⟨c, t, hc, ht, h⟩
      simp [hne]

/-- C1: a DELETE on `/tasks/{id}` with a valid integer id cancels the in-flight task when
its TaskID is `id` (the registered cancel function is invoked and taken out of the
registry, the queue and `curTask` stay as they were, status 200); otherwise, when the
queue exists and holds `id`, `Remove` succeeds, the first entry with that id leaves the
queue, the registry stays as it was, no cancel function is invoked, status 200. -/
theorem delete_cancels_inflight_or_removes_queued (env : Env) (l : Lightning) (req : Request)
    (id : Int) (verb : String) (hm : req.Method = "DELETE")
    (hid : parseTaskID req = .ok (id, verb)) :
    (∀ c t, l.cancel = some c → l.curTask = some t → t.TaskID = id →
        (handleTask env l .new req).invoked = [c] ∧
        (handleTask env l .new req).l = { l with cancel := none } ∧
        (handleTask env l .new req).w.status = some 200) ∧
    (¬ (∃ c t, l.cancel = some c ∧ l.curTask = some t ∧ t.TaskID = id) →
      ∀ q, l.taskCfgs = some q → id ∈ q.AllIDs →
        (q.Remove id).2 = true ∧
        (q.Remove id).1.AllIDs = q.AllIDs.erase id ∧
        (handleTask env l .new req).l = { l with taskCfgs := some (q.Remove id).1 } ∧
        (handleTask env l .new req).invoked = [] ∧
        (handleTask env l .new req).w.status = some 200) := by
  have hdisp : handleTask env l .new req =
      handleDeleteOneTask l (ResponseWriter.new.Set "Content-Type" "application/json") req := by
    simp [handleTask, hm]
  rw [hdisp]
  refine ⟨?_, ?_⟩
  · intro c t hc ht hteq
    have htaken : takeCancel l id = (some c, { l with cancel := none }) := by
      simp [takeCancel, hc, ht, hteq]
    simp [handleDeleteOneTask, hid, htaken, cancelOrRemove, ResponseWriter.Set,
      ResponseWriter.new, ResponseWriter.WriteHeader, ResponseWriter.Write]
  · intro hnot q hq hmem
    have hrem : (q.Remove id).2 = true := (remove_true_iff q id).2 hmem
    refine ⟨hrem, remove_allIDs q id, ?_⟩
    have htaken : takeCancel l id = (none, l) := takeCancel_none_of_not_inflight l id hnot
    simp [handleDeleteOneTask, hid, htaken, cancelOrRemove, hq, hrem, ResponseWriter.Set,
      ResponseWriter.new, ResponseWriter.WriteHeader, ResponseWriter.Write]

/-- Witness for C1: DELETE `/7` while task 7 is in flight with cancel function 3. -/
theorem delete_cancels_inflight_or_removes_queued_witness :
    (handleTask sampleEnv { New with curTask := some (sampleConfig 7), cancel := some 3 } .new
        (sampleRequest "DELETE" "/7")).invoked = [3] ∧
    (handleTask sampleEnv { New with curTask := some (sampleConfig 7), cancel := some 3 } .new
        (sampleRequest "DELETE" "/7")).w.status = some 200 :=
  have h := (delete_cancels_inflight_or_removes_queued sampleEnv
    { New with curTask := some (sampleConfig 7), cancel := some 3 }
    (sampleRequest "DELETE" "/7") 7 "" rfl rfl).1 3 (sampleConfig 7) rfl rfl rfl
  ⟨h.1, h.2.2⟩

theorem handleTask_delete (env : Env) (l : Lightning) (req : Request)
    (hm : req.Method = "DELETE") :
    handleTask env l .new req =
      handleDeleteOneTask l (ResponseWriter.new.Set "Content-Type" "application/json") req := by
  simp [handleTask, hm]

theorem delete_miss (s : Lightning) (req : Request) (id : Int) (verb : String)
    (hid : parseTaskID req = .ok (id, verb))
    (hnot : ¬ (∃ c t, s.cancel = some c ∧ s.curTask = some t ∧ t.TaskID = id))
    (hq : ∀ q, s.taskCfgs = some q → id ∉ q.AllIDs) :
    (handleDeleteOneTask s (ResponseWriter.new.Set "Content-Type" "application/json")
        req).w.status = some 404 ∧
    (handleDeleteOneTask s (ResponseWriter.new.Set "Content-Type" "application/json")
        req).invoked = [] := by
  have htaken : takeCancel s id = (none, s) := takeCancel_none_of_not_inflight s id hnot
  cases hs : s.taskCfgs with
  | none =>
    simp [handleDeleteOneTask, hid, htaken, cancelOrRemove, hs, writeJSONError,
      ResponseWriter.Set, ResponseWriter.new, ResponseWriter.WriteHeader, ResponseWriter.Write]
  | some q =>
    have hrem : (q.Remove id).2 = false := by
      cases hb : (q.Remove id).2 with
      | false => rfl
      | true => exact absurd ((remove_true_iff q id).1 hb) (hq q hs)
    simp [handleDeleteOneTask, hid, htaken, cancelOrRemove, hs, hrem, writeJSONError,
      ResponseWriter.Set, ResponseWriter.new, ResponseWriter.WriteHeader, ResponseWriter.Write]

theorem delete_state_inflight (l : Lightning) (w : ResponseWriter) (req : Request) (id : Int)
    (verb : String) (hid : parseTaskID req = .ok (id, verb)) (c : CancelFunc) (t : Config)
    (hc : l.cancel = some c) (ht : l.curTask = some t) (hteq : t.TaskID = id) :
    (handleDeleteOneTask l w req).l = { l with cancel := none } := by
  have htaken : takeCancel l id = (some c, { l with cancel := none }) := by
    simp [takeCancel, hc, ht, hteq]
  simp [handleDeleteOneTask, hid, htaken, cancelOrRemove]

theorem delete_state_queued (l : Lightning) (w : ResponseWriter) (req : Request) (id : Int)
    (verb : String) (hid : parseTaskID req = .ok (id, verb))
    (hnot : ¬ (∃ c t, l.cancel = some c ∧ l.curTask = some t ∧ t.TaskID = id))
    (q : ConfigList) (hq : l.taskCfgs = some q) :
    (handleDeleteOneTask l w req).l = { l with taskCfgs := some (q.Remove id).1 } := by
  have htaken : takeCancel l id = (none, l) := takeCancel_none_of_not_inflight l id hnot
  cases hrem : (q.Remove id).2 <;>
    simp [handleDeleteOneTask, hid, htaken, cancelOrRemove, hq, hrem]

/-- C2: when TaskIDs are unique across the queue and the in-flight task, a DELETE that
was answered 200 is answered 404 when it is repeated at once, and the repeated request
invokes no cancel function. -/
theorem double_delete_not_found (env : Env) (l : Lightning) (req : Request)
    (hm : req.Method = "DELETE") (hu : UniqueTaskIDs l)
    (h200 : (handleTask env l .new req).w.status = some 200) :
    (handleTask env (handleTask env l .new req).l .new req).w.status = some 404 ∧
    (handleTask env (handleTask env l .new req).l .new req).invoked = [] := by
  rw [handleTask_delete env _ req hm]
  rw [handleTask_delete env l req hm] at h200 ⊢
  cases hid : parseTaskID req with
  | error e =>
    simp [handleDeleteOneTask, hid, writeJSONError, ResponseWriter.Set, ResponseWriter.new,
      ResponseWriter.WriteHeader, ResponseWriter.Write] at h200
  | ok p =>
    obtain ⟨id, verb⟩ := p
    by_cases hin : ∃ c t, l.cancel = some c ∧ l.curTask = some t ∧ t.TaskID = id
    · obtain ⟨c, t, hc, ht, hteq⟩ := hin
      rw [delete_state_inflight l _ req id verb hid c t hc ht hteq]
      apply delete_miss _ req id verb hid
      · rintro ⟨c2, t2, hc2, -, -⟩
        cases hc2
      · intro q hq
        have hq2 : l.taskCfgs = some q := hq
        have hu2 := hu
        simp only [UniqueTaskIDs, hq2, hc, ht] at hu2
        rw [← hteq]
        exact hu2.2
    · cases hq : l.taskCfgs with
      | none =>
        have h404 := (delete_miss l req id verb hid hin (by intro q hq2; rw [hq] at hq2; cases hq2)).1
        rw [h404] at h200
        cases h200
      | some q =>
        have hnd : q.AllIDs.Nodup := by
          have hu2 := hu
          simp only [UniqueTaskIDs, hq] at hu2
          exact hu2.1
        rw [delete_state_queued l (ResponseWriter.new.Set "Content-Type" "application/json")
          req id verb hid hin q hq]
        apply delete_miss _ req id verb hid
        · rintro ⟨c2, t2, hc2, ht2, hteq2⟩
          exact hin ⟨c2, t2, hc2, ht2, hteq2⟩
        · intro q2 hq2
          have hq3 : some (q.Remove id).1 = some q2 := hq2
          cases hq3
          rw [remove_allIDs]
          intro hmem
          exact ((List.Nodup.mem_erase_iff hnd).1 hmem).1 rfl

/-- Witness for C2: task 5 is queued behind task 4 while task 7 is in flight; the first
DELETE `/5` is answered 200, the second 404. -/
theorem double_delete_not_found_witness :
    (handleTask sampleEnv
      (handleTask sampleEnv
        { New with taskCfgs := some ⟨[sampleConfig 4, sampleConfig 5]⟩,
                   curTask := some (sampleConfig 7), cancel := some 3 } .new
        (sampleRequest "DELETE" "/5")).l .new (sampleRequest "DELETE" "/5")).w.status
      = some 404 :=
  (double_delete_not_found sampleEnv
    { New with taskCfgs := some ⟨[sampleConfig 4, sampleConfig 5]⟩,
               curTask := some (sampleConfig 7), cancel := some 3 }
    (sampleRequest "DELETE" "/5") rfl (by simp [UniqueTaskIDs, ConfigList.AllIDs, sampleConfig, New])
    (by decide)).1

/-! ## The `current` field of `GET /tasks` -/

theorem currentOf_eq (l : Lightning) :
    currentOf l = match l.cancel, l.curTask with
      | some _, some t => some t.TaskID
      | _, _ => none := by
  simp [currentOf, handleGetTask, ResponseWriter.new, ResponseWriter.WriteHeader,
    ResponseWriter.Write]

/-- What `handleDeleteOneTask` does to the registry: `curTask` stays, and either nothing
is invoked and `cancel` stays, or the registered cancel function is invoked and taken. -/
theorem delete_registry (l : Lightning) (w : ResponseWriter) (req : Request) :
    (handleDeleteOneTask l w req).l.curTask = l.curTask ∧
    (((handleDeleteOneTask l w req).invoked = [] ∧
        (handleDeleteOneTask l w req).l.cancel = l.cancel) ∨
      (∃ c, l.cancel = some c ∧ (handleDeleteOneTask l w req).invoked = [c] ∧
        (handleDeleteOneTask l w req).l.cancel = none)) := by
  cases hid : parseTaskID req with
  | error e => simp [handleDeleteOneTask, hid]
  | ok p =>
    obtain ⟨id, verb⟩ := p
    by_cases hin : ∃ c t, l.cancel = some c ∧ l.curTask = some t ∧ t.TaskID = id
    · obtain ⟨c, t, hc, ht, hteq⟩ := hin
      have htaken : takeCancel l id = (some c, { l with cancel := none }) := by
        simp [takeCancel, hc, ht, hteq]
      refine ⟨?_, Or.inr ⟨c, hc, ?_, ?_⟩⟩ <;>
        simp [handleDeleteOneTask, hid, htaken, cancelOrRemove]
    · have htaken : takeCancel l id = (none, l) := takeCancel_none_of_not_inflight l id hin
      cases hq : l.taskCfgs with
      | none =>
        refine ⟨?_, Or.inl ⟨?_, ?_⟩⟩ <;>
          simp [handleDeleteOneTask, hid, htaken, cancelOrRemove, hq]
      | some q =>
        refine ⟨?_, Or.inl ⟨?_, ?_⟩⟩ <;>
          cases hrem : (q.Remove id).2 <;>
          simp [handleDeleteOneTask, hid, htaken, cancelOrRemove, hq, hrem]

theorem post_registry (env : Env) (l : Lightning) (w : ResponseWriter) (req : Request) :
    (handlePostTask env l w req).l.curTask = l.curTask ∧
    (handlePostTask env l w req).invoked = [] ∧
    (handlePostTask env l w req).l.cancel = l.cancel := by
  unfold handlePostTask
  split
  · simp
  · split
    · simp
    · split
      · simp
      · split
        · simp
        · split <;> simp

theorem patch_registry (l : Lightning) (w : ResponseWriter) (req : Request) :
    (handlePatchOneTask l w req).l.curTask = l.curTask ∧
    (handlePatchOneTask l w req).invoked = [] ∧
    (handlePatchOneTask l w req).l.cancel = l.cancel := by
  unfold handlePatchOneTask
  cases l.taskCfgs with
  | none => simp
  | some q =>
    cases parseTaskID req with
    | error e => simp
    | ok p =>
      obtain ⟨id, verb⟩ := p
      by_cases h1 : verb = "front"
      · cases hm : (q.MoveToFront id).2 <;> simp [h1, hm]
      · by_cases h2 : verb = "back"
        · cases hm : (q.MoveToBack id).2 <;> simp [h1, h2, hm]
        · simp [h1, h2]

/-- What serving a request on `/tasks` does to the registry. -/
theorem handleTask_registry (env : Env) (l : Lightning) (req : Request) :
    (handleTask env l .new req).l.curTask = l.curTask ∧
    (((handleTask env l .new req).invoked = [] ∧
        (handleTask env l .new req).l.cancel = l.cancel) ∨
      (∃ c, l.cancel = some c ∧ (handleTask env l .new req).invoked = [c] ∧
        (handleTask env l .new req).l.cancel = none)) := by
  unfold handleTask
  by_cases hg : req.Method = "GET"
  · cases hid : parseTaskID req with
    | error e => by_cases hn : e.Num = "" <;> simp [hg, hid, hn]
    | ok p => simp [hg, hid]
  · by_cases hp : req.Method = "POST"
    · simp only [hg, hp, if_true, if_false]
      have h := post_registry env l (ResponseWriter.new.Set "Content-Type" "application/json") req
      exact ⟨h.1, Or.inl ⟨h.2.1, h.2.2⟩⟩
    · by_cases hd : req.Method = "DELETE"
      · simp only [hg, hp, hd, if_true, if_false]
        exact delete_registry l _ req
      · by_cases hpa : req.Method = "PATCH"
        · simp only [hg, hp, hd, hpa, if_true, if_false]
          have h := patch_registry l (ResponseWriter.new.Set "Content-Type" "application/json") req
          exact ⟨h.1, Or.inl ⟨h.2.1, h.2.2⟩⟩
        · simp [hg, hp, hd, hpa]

theorem registryInv_init : RegistryInv Supervisor.init := by
  simp [RegistryInv, Supervisor.init, New]

theorem registryInv_step (s s1 : Supervisor) (e : Event) (hinv : RegistryInv s)
    (hstep : s.step e = some s1) : RegistryInv s1 := by
  cases e with
  | runServerStart =>
    cases hr : s.running with
    | some f => simp [Supervisor.step, hr] at hstep
    | none =>
      cases hq : s.l.taskCfgs with
      | some q => simp [Supervisor.step, hr, hq] at hstep
      | none =>
        simp [Supervisor.step, hr, hq] at hstep
        subst hstep
        simpa [RegistryInv, hr] using hinv
  | runServerIter =>
    cases hr : s.running with
    | some f => simp [Supervisor.step, hr] at hstep
    | none =>
      cases hq : s.l.taskCfgs with
      | none => simp [Supervisor.step, hr, hq] at hstep
      | some q =>
        cases hsr : s.serverReturned with
        | true => simp [Supervisor.step, hr, hq, hsr] at hstep
        | false =>
          cases hpop : q.Pop s.l.ctxDone with
          | none => simp [Supervisor.step, hr, hq, hsr, hpop] at hstep
          | some res =>
            cases res with
            | error err =>
              simp [Supervisor.step, hr, hq, hsr, hpop] at hstep
              subst hstep
              simpa [RegistryInv, hr] using hinv
            | ok p =>
              obtain ⟨task, rest⟩ := p
              simp [Supervisor.step, hr, hq, hsr, hpop] at hstep
              subst hstep
              simp [RegistryInv, Supervisor.startRun, runRegister]
  | runOnce adjusted now =>
    cases hr : s.running with
    | some f => simp [Supervisor.step, hr] at hstep
    | none =>
      cases adjusted with
      | error err =>
        simp [Supervisor.step, hr] at hstep
        subst hstep
        exact hinv
      | ok taskCfg =>
        simp [Supervisor.step, hr] at hstep
        subst hstep
        simp [RegistryInv, Supervisor.startRun, runRegister]
  | taskEnd err =>
    cases hr : s.running with
    | none => simp [Supervisor.step, hr] at hstep
    | some f =>
      simp [Supervisor.step, hr] at hstep
      subst hstep
      simp [RegistryInv, runDeferred]
  | stop =>
    simp [Supervisor.step] at hstep
    subst hstep
    simpa [RegistryInv, Stop] using hinv
  | http env req =>
    simp [Supervisor.step] at hstep
    subst hstep
    obtain ⟨hcur, hreg⟩ := handleTask_registry env s.l req
    cases hr : s.running with
    | none =>
      have hc : s.l.cancel = none := by simpa [RegistryInv, hr] using hinv
      rcases hreg with ⟨-, hsame⟩ | ⟨c, hc2, -, -⟩
      · simp [RegistryInv, hsame, hc]
      · rw [hc] at hc2
        cases hc2
    | some f =>
      have hi : s.l.curTask = some f.taskCfg ∧
          (f.deleted = false → s.l.cancel = some f.cancel) ∧
          (f.deleted = true → s.l.cancel = none) := by
        simpa [RegistryInv, hr] using hinv
      rcases hreg with ⟨hnil, hsame⟩ | ⟨c, hc2, hinvk, hnone⟩
      · simp [RegistryInv, hcur, hsame, hnil, hi.1]
        exact ⟨hi.2.1, hi.2.2⟩
      · simp [RegistryInv, hcur, hinvk, hnone, hi.1]

theorem registryInv_exec (es : List Event) :
    ∀ s s1 : Supervisor, RegistryInv s → s.exec es = some s1 → RegistryInv s1 := by
  induction es with
  | nil =>
    intro s s1 hinv h
    simp [Supervisor.exec] at h
    subst h
    exact hinv
  | cons e es ih =>
    intro s s1 hinv h
    cases hs : s.step e with
    | none => simp [Supervisor.exec, hs] at h
    | some s2 =>
      simp [Supervisor.exec, hs] at h
      exact ih s2 s1 (registryInv_step s s2 e hinv hs) h

theorem registryInv_of_reachable (s : Supervisor) (h : Reachable s) : RegistryInv s := by
  obtain ⟨es, hes⟩ := h
  exact registryInv_exec es _ s registryInv_init hes

/-- C3, as stated, fails: after `RunOnce` has registered task 7 and DELETE `/7` has
cancelled it, `run` has not returned, so task 7 is still in flight, yet `GET /tasks`
reports `current` as null. -/
theorem current_null_iff_not_running_fails :
    ¬ ∀ s : Supervisor, Reachable s → (currentOf s.l = none ↔ s.inFlight = none) := by
  intro h
  have hr : Reachable
      { l := { New with curTask := some (sampleConfig 7) }
        running := some ⟨sampleConfig 7, 0, false, true⟩
        cancelled := [0], nextCtx := 1, stopped := false, serverReturned := false
        globals := ⟨false, InfoLevel⟩, finished := [] } :=
    ⟨[.runOnce (.ok (sampleConfig 7)) 7, .http sampleEnv (sampleRequest "DELETE" "/7")], rfl⟩
  have h2 := (h _ hr).1 rfl
  simp [Supervisor.inFlight] at h2

/-- C3, amended: in every reachable state the `current` field of `GET /tasks` is null
exactly when no task is in flight or a DELETE has taken the in-flight task's cancel
function out of the registry; when it is not null it is the TaskID of the task in
flight. -/
theorem current_null_iff_not_running_or_deleted (s : Supervisor) (hr : Reachable s) :
    (currentOf s.l = none ↔
      (s.running = none ∨ ∃ f, s.running = some f ∧ f.deleted = true)) ∧
    (∀ id, currentOf s.l = some id → s.inFlight = some id) := by
  have hinv := registryInv_of_reachable s hr
  rw [currentOf_eq]
  cases hrun : s.running with
  | none =>
    have hc : s.l.cancel = none := by simpa [RegistryInv, hrun] using hinv
    simp [hc]
  | some f =>
    have hi : s.l.curTask = some f.taskCfg ∧
        (f.deleted = false → s.l.cancel = some f.cancel) ∧
        (f.deleted = true → s.l.cancel = none) := by
      simpa [RegistryInv, hrun] using hinv
    cases hd : f.deleted with
    | true => simp [hi.2.2 hd, hd]
    | false => simp [hi.2.1 hd, hi.1, hd, Supervisor.inFlight, hrun]

/-- Witness for C3: the state in which task 7 has been registered by `RunOnce`. -/
theorem current_null_iff_not_running_or_deleted_witness :
    currentOf (runRegister New (sampleConfig 7) 0) = some 7 ∧
    (Supervisor.startRun Supervisor.init (sampleConfig 7) false).inFlight = some 7 :=
  ⟨rfl,
    (current_null_iff_not_running_or_deleted
      (Supervisor.startRun Supervisor.init (sampleConfig 7) false)
      ⟨[.runOnce (.ok (sampleConfig 7)) 7], rfl⟩).2 7 rfl⟩

/-! ## Looking up one task -/

/-- C4, code at the failing input: `RunOnce` registers task 7 and the task ends, so no
task is in flight and there is no queue; `GET /tasks/7` is still answered 200 with the
stale `curTask`, where `GET /tasks` reports no current task. -/
theorem get_finished_task_is_served :
    ∃ s : Supervisor,
      Supervisor.init.exec [.runOnce (.ok (sampleConfig 7)) 7, .taskEnd none] = some s ∧
      s.inFlight = none ∧ s.l.taskCfgs = none ∧ s.finished = [7] ∧
      currentOf s.l = none ∧
      (handleTask sampleEnv s.l .new (sampleRequest "GET" "/7")).w.status = some 200 ∧
      (handleTask sampleEnv s.l .new (sampleRequest "GET" "/8")).w.status = some 404 :=
  ⟨_, rfl, rfl, rfl, rfl, rfl, by decide, by decide⟩

/-! ## Stopping -/

/-- C8, code at the failing input: in one-shot mode `Stop` runs first, finds no cancel
function, and cancels the root context; `RunOnce` with the background context then
registers task 7, whose context (number 0) is not cancelled. -/
theorem run_once_after_stop_registers :
    ∃ s : Supervisor,
      Supervisor.init.exec [.stop, .runOnce (.ok (sampleConfig 7)) 7] = some s ∧
      s.stopped = true ∧ s.l.ctxDone = true ∧
      s.inFlight = some 7 ∧ s.l.cancel = some 0 ∧ 0 ∉ s.cancelled :=
  ⟨_, rfl, rfl, rfl, rfl, rfl, by decide⟩

/-- In server mode the loop of `RunServer` observes the root context: once it is
cancelled, an iteration does not register a task. -/
theorem server_iter_after_stop (s s1 : Supervisor) (hdone : s.l.ctxDone = true)
    (hstep : s.step .runServerIter = some s1) :
    s1.running = none ∧ s1.l.cancel = s.l.cancel ∧ s1.serverReturned = true := by
  cases hr : s.running with
  | some f => simp [Supervisor.step, hr] at hstep
  | none =>
    cases hq : s.l.taskCfgs with
    | none => simp [Supervisor.step, hr, hq] at hstep
    | some q =>
      cases hsr : s.serverReturned with
      | true => simp [Supervisor.step, hr, hq, hsr] at hstep
      | false =>
        simp [Supervisor.step, hr, hq, hsr, ConfigList.Pop, hdone] at hstep
        subst hstep
        simp [hr]

/-! ## The exit code of the command -/

/-- C5, code at the failing input: whatever the other calls do, when `GoServe` returns
an error `main` returns after printing it, so the exit code is 0. -/
theorem main_bind_failure_exits_zero (c : MainCalls) (e : String) :
    (main { c with goServe := some e }).exitCode = 0 ∧
    (main { c with goServe := some e }).stderr = ["failed to start HTTP server: " ++ e] := by
  simp [main]

/-- When `GoServe` succeeds, the exit code is 1 exactly when the task run (or loading its
config) returned an error, and 0 otherwise. -/
theorem main_exit_code_of_task (c : MainCalls) (hserve : c.goServe = none) :
    (main c).exitCode = if (mainTaskErr c).isSome then 1 else 0 := by
  unfold main
  rw [hserve]
  cases mainTaskErr c <;> simp

/-! ## The resource-limit estimate -/

theorem wrapInt64_range (x : Int) : -2 ^ 63 ≤ wrapInt64 x ∧ wrapInt64 x < 2 ^ 63 := by
  unfold wrapInt64
  have h1 : 0 ≤ (x + 2 ^ 63) % 2 ^ 64 := Int.emod_nonneg _ (by norm_num)
  have h2 : (x + 2 ^ 63) % 2 ^ 64 < 2 ^ 64 := Int.emod_lt_of_pos _ (by norm_num)
  constructor <;> omega

theorem sumTopLoop_range (tc : Int) (xs : List Int) :
    ∀ (i : Nat) (acc : Int), acc < 2 ^ 63 → sumTopLoop tc i xs acc < 2 ^ 63 := by
  induction xs with
  | nil =>
    intro i acc h
    simpa [sumTopLoop] using h
  | cons x xs ih =>
    intro i acc h
    unfold sumTopLoop
    split
    · exact ih _ _ (wrapInt64_range _).2
    · exact h

theorem topNTotalSize_lt (cfg : Config) (dbsMeta : List MDDatabaseMeta) :
    topNTotalSize cfg dbsMeta < 2 ^ 63 :=
  sumTopLoop_range _ _ 0 0 (by norm_num)

theorem toUint64_of_nonneg (x : Int) (h0 : 0 ≤ x) (h1 : x < 2 ^ 63) :
    toUint64 x = x.toNat := by
  unfold toUint64
  rw [Int.emod_eq_of_lt h0 (by omega)]

/-- C6, code at the failing input: with check-requirements on, the local backend, region
concurrency 16, table concurrency 2, one table of total size 12 and an engine memory
cache of 8, the top-K sum is 12 and the code passes `16 + 12 / 8 * 2 = 18` to the rlimit
verification, where the formula of the comment above the computation,
`2*totalSize/memCacheSize` added to the region concurrency, gives
`16 + (2 * 12) / 8 = 19`; a verification that accepts up to 18 open files lets the task
through although it rejects 19. -/
theorem rlimit_estimate_divides_before_doubling :
    topNTotalSize (sampleConfig 1) [⟨"db", [⟨"t", 12⟩]⟩] = 12 ∧
    estimateMaxFiles (sampleConfig 1).App.RegionConcurrency
      (topNTotalSize (sampleConfig 1) [⟨"db", [⟨"t", 12⟩]⟩])
      (sampleConfig 1).TikvImporter.EngineMemCacheSize = 18 ∧
    ((sampleConfig 1).App.RegionConcurrency +
      (2 * topNTotalSize (sampleConfig 1) [⟨"db", [⟨"t", 12⟩]⟩]) /
        (sampleConfig 1).TikvImporter.EngineMemCacheSize) = 19 ∧
    checkSystemRequirement (fun n => if n ≤ 18 then none else some "open files limit too low")
      (sampleConfig 1) [⟨"db", [⟨"t", 12⟩]⟩] = .returned none ∧
    (fun n => if n ≤ 18 then none else some "open files limit too low") 19
      = some "open files limit too low" := by
  decide

/-- The estimate with the multiplication first is not what the code passes to the rlimit
verification: with region concurrency 16, one table of total size 12 and an engine
memory cache of 8 it is `16 + (2 * 12) / 8 = 19`, which this `VerifyRLimit` rejects,
while the code passes `16 + 12 / 8 * 2 = 18`, which it accepts. -/
theorem rlimit_estimate_multiply_first_fails :
    ¬ ∀ (VerifyRLimit : Nat → Option String) (cfg : Config) (dbsMeta : List MDDatabaseMeta),
      cfg.App.CheckRequirements = true → cfg.TikvImporter.Backend = BackendLocal →
      0 ≤ cfg.App.RegionConcurrency → 0 ≤ topNTotalSize cfg dbsMeta →
      0 < cfg.TikvImporter.EngineMemCacheSize →
      checkSystemRequirement VerifyRLimit cfg dbsMeta =
        .returned (VerifyRLimit (cfg.App.RegionConcurrency +
          (2 * topNTotalSize cfg dbsMeta) / cfg.TikvImporter.EngineMemCacheSize).toNat) := by
  intro h
  have h1 := h (fun n => if n ≤ 18 then none else some "the maximum number of open files is too low")
    (sampleConfig 1) [⟨"db", [⟨"t", 12⟩]⟩] rfl rfl (by decide) (by decide) (by decide)
  revert h1
  decide

/-- What the code computes: for the local backend with check-requirements enabled and
signed 64-bit values `region_concurrency ≥ 0`, `topK_sum ≥ 0`,
`engine_mem_cache_size > 0`, the value passed to the rlimit verification is
`region_concurrency + (topK_sum / engine_mem_cache_size) * 2` in `uint64` (modulo
`2^64`), the truncating division being applied before the multiplication by 2, and the
result of `checkSystemRequirement` is the result of the verification of that value. -/
theorem rlimit_estimate_divide_first (VerifyRLimit : Nat → Option String) (cfg : Config)
    (dbsMeta : List MDDatabaseMeta)
    (hcheck : cfg.App.CheckRequirements = true)
    (hlocal : cfg.TikvImporter.Backend = BackendLocal)
    (hrc : 0 ≤ cfg.App.RegionConcurrency) (hrc2 : cfg.App.RegionConcurrency < 2 ^ 63)
    (htop : 0 ≤ topNTotalSize cfg dbsMeta)
    (hmem : 0 < cfg.TikvImporter.EngineMemCacheSize)
    (hmem2 : cfg.TikvImporter.EngineMemCacheSize < 2 ^ 63) :
    checkSystemRequirement VerifyRLimit cfg dbsMeta =
      .returned (VerifyRLimit ((cfg.App.RegionConcurrency.toNat +
        (topNTotalSize cfg dbsMeta).toNat / cfg.TikvImporter.EngineMemCacheSize.toNat * 2)
          % 2 ^ 64)) := by
  have htop2 := topNTotalSize_lt cfg dbsMeta
  have e1 := toUint64_of_nonneg _ hrc hrc2
  have e2 := toUint64_of_nonneg _ htop htop2
  have e3 := toUint64_of_nonneg _ (le_of_lt hmem) hmem2
  have hne : cfg.TikvImporter.EngineMemCacheSize.toNat ≠ 0 := by omega
  have hsmall : (topNTotalSize cfg dbsMeta).toNat / cfg.TikvImporter.EngineMemCacheSize.toNat * 2
      < 2 ^ 64 := by
    have hle : (topNTotalSize cfg dbsMeta).toNat / cfg.TikvImporter.EngineMemCacheSize.toNat
        ≤ (topNTotalSize cfg dbsMeta).toNat := Nat.div_le_self _ _
    omega
  simp only [checkSystemRequirement, hcheck, hlocal, estimateMaxFiles, e1, e2, e3,
    Nat.mod_eq_of_lt hsmall, if_true, Bool.not_true, Bool.false_eq_true, if_false, hne]

/-- The computation at region concurrency 16, one table of total size 12 and cache
size 8. -/
theorem rlimit_estimate_divide_first_witness :
    checkSystemRequirement (fun n => if n ≤ 18 then none else some "too low")
      (sampleConfig 1) [⟨"db", [⟨"t", 12⟩]⟩] = .returned none :=
  rlimit_estimate_divide_first (fun n => if n ≤ 18 then none else some "too low")
    (sampleConfig 1) [⟨"db", [⟨"t", 12⟩]⟩] rfl rfl (by decide) (by decide) (by decide)
    (by decide) (by decide)

/-! ## The checkpoint-schema conflict check -/

theorem conflictInTables_ne_none (isCp : String → Bool) (dbName : String)
    (tbs : List MDTableMeta) :
    conflictInTables isCp dbName tbs ≠ none ↔ ∃ tb ∈ tbs, isCp tb.Name = true := by
  induction tbs with
  | nil => simp [conflictInTables]
  | cons tb tbs ih =>
    unfold conflictInTables
    by_cases h : isCp tb.Name = true
    · simp [h]
    · simp [h, ih]

theorem conflictInDatabases_ne_none (isCp : String → Bool) (schema : String)
    (dbs : List MDDatabaseMeta) :
    conflictInDatabases isCp schema dbs ≠ none ↔
      ∃ db ∈ dbs, db.Name = schema ∧ ∃ tb ∈ db.Tables, isCp tb.Name = true := by
  induction dbs with
  | nil => simp [conflictInDatabases]
  | cons db dbs ih =>
    unfold conflictInDatabases
    by_cases hn : db.Name = schema
    · cases ht : conflictInTables isCp db.Name db.Tables with
      | some e =>
        have hex : ∃ tb ∈ db.Tables, isCp tb.Name = true :=
          (conflictInTables_ne_none isCp db.Name db.Tables).1 (by simp [ht])
        simp only [hn, if_true, ne_eq, reduceCtorEq, not_false_eq_true, true_iff]
        exact ⟨db, List.mem_cons_self _ _, hn, hex⟩
      | none =>
        have hno : ¬ ∃ tb ∈ db.Tables, isCp tb.Name = true := by
          intro hex
          exact (conflictInTables_ne_none isCp db.Name db.Tables).2 hex ht
        simp only [hn, if_true, ih, List.mem_cons, exists_eq_or_imp]
        constructor
        · intro h
          exact Or.inr h
        · rintro (⟨-, hex⟩ | h)
          · exact absurd hex hno
          · exact h
    · simp only [hn, if_false, ih, List.mem_cons, exists_eq_or_imp, false_and, false_or]

/-- C7: `checkSchemaConflict` returns an error exactly when checkpoints are enabled, the
checkpoint driver is the SQL (mysql) driver, and some database of the dump is named like
the checkpoint schema and has a table whose name is a reserved checkpoint table name; in
every other case it returns nil. -/
theorem checkSchemaConflict_error_iff (IsCheckpointTable : String → Bool) (cfg : Config)
    (dbsMeta : List MDDatabaseMeta) :
    checkSchemaConflict IsCheckpointTable cfg dbsMeta ≠ none ↔
      (cfg.Checkpoint.Enable = true ∧ cfg.Checkpoint.Driver = CheckpointDriverMySQL ∧
        ∃ db ∈ dbsMeta, db.Name = cfg.Checkpoint.Schema ∧
          ∃ tb ∈ db.Tables, IsCheckpointTable tb.Name = true) := by
  unfold checkSchemaConflict
  by_cases he : cfg.Checkpoint.Enable = true
  · by_cases hd : cfg.Checkpoint.Driver = CheckpointDriverMySQL
    · simp only [he, hd, beq_self_eq_true, Bool.and_self, if_true, true_and]
      exact conflictInDatabases_ne_none _ _ _
    · simp [he, hd]
  · simp [he]

/-! ## Posting a task outside server mode -/

/-- C9: a POST to `/tasks` while the queue was never constructed is answered 501 for
every request body, and the supervisor state is unchanged (no queue, nothing enqueued,
`cancel` and `curTask` as before); no cancel function is invoked. -/
theorem post_outside_server_mode (env : Env) (l : Lightning) (req : Request)
    (hm : req.Method = "POST") (hq : l.taskCfgs = none) :
    (handleTask env l .new req).w.status = some 501 ∧
    (handleTask env l .new req).l = l ∧
    (handleTask env l .new req).l.taskCfgs = none ∧
    (handleTask env l .new req).invoked = [] := by
  simp [handleTask, hm, handlePostTask, hq, writeJSONError, ResponseWriter.Set,
    ResponseWriter.new, ResponseWriter.WriteHeader, ResponseWriter.Write]

/-- Witness for C9: a POST with a TOML body while task 7 runs in one-shot mode. -/
theorem post_outside_server_mode_witness :
    (handleTask sampleEnv (runRegister New (sampleConfig 7) 0) .new
      ⟨"POST", "", "", .ok "[mydumper]"⟩).w.status = some 501 :=
  (post_outside_server_mode sampleEnv (runRegister New (sampleConfig 7) 0)
    ⟨"POST", "", "", .ok "[mydumper]"⟩ rfl rfl).1

/-! ## Methods that are not allowed -/

/-- C10: a method a handler does not support is answered 405 with the `Allow` header
listing exactly the handler's methods, and the supervisor state, the pause gate and the
log level are unchanged: `handleTask` (GET, POST, DELETE, PATCH), `handlePause`
(GET, PUT), `handleResume` (PUT), `handleLogLevel` (GET, PUT, POST). -/
theorem method_not_allowed (env : Env) (decode : Except String String → Except String Int)
    (l : Lightning) (g : Globals) (req : Request) :
    ((req.Method ≠ "GET" ∧ req.Method ≠ "POST" ∧ req.Method ≠ "DELETE" ∧
        req.Method ≠ "PATCH") →
      (handleTask env l .new req).w.status = some 405 ∧
      (handleTask env l .new req).w.Get "Allow" = some "GET, POST, DELETE, PATCH" ∧
      (handleTask env l .new req).l = l ∧
      (handleTask env l .new req).invoked = []) ∧
    ((req.Method ≠ "GET" ∧ req.Method ≠ "PUT") →
      (handlePause g .new req).2.status = some 405 ∧
      (handlePause g .new req).2.Get "Allow" = some "GET, PUT" ∧
      (handlePause g .new req).1 = g) ∧
    (req.Method ≠ "PUT" →
      (handleResume g .new req).2.status = some 405 ∧
      (handleResume g .new req).2.Get "Allow" = some "PUT" ∧
      (handleResume g .new req).1 = g) ∧
    ((req.Method ≠ "GET" ∧ req.Method ≠ "PUT" ∧ req.Method ≠ "POST") →
      (handleLogLevel decode g .new req).2.status = some 405 ∧
      (handleLogLevel decode g .new req).2.Get "Allow" = some "GET, PUT, POST" ∧
      (handleLogLevel decode g .new req).1 = g) := by
  refine ⟨?_, ?_, ?_, ?_⟩
  · rintro ⟨h1, h2, h3, h4⟩
    simp [handleTask, h1, h2, h3, h4, writeJSONError, ResponseWriter.Set, ResponseWriter.Get,
      ResponseWriter.new, ResponseWriter.WriteHeader, ResponseWriter.Write]
  · rintro ⟨h1, h2⟩
    simp [handlePause, h1, h2, writeJSONError, ResponseWriter.Set, ResponseWriter.Get,
      ResponseWriter.new, ResponseWriter.WriteHeader, ResponseWriter.Write]
  · intro h1
    simp [handleResume, h1, writeJSONError, ResponseWriter.Set, ResponseWriter.Get,
      ResponseWriter.new, ResponseWriter.WriteHeader, ResponseWriter.Write]
  · rintro ⟨h1, h2, h3⟩
    simp [handleLogLevel, h1, h2, h3, writeJSONError, ResponseWriter.Set, ResponseWriter.Get,
      ResponseWriter.new, ResponseWriter.WriteHeader, ResponseWriter.Write]

/-- Witness for C10: HEAD on each of the four handlers. -/
theorem method_not_allowed_witness :
    (handleTask sampleEnv New .new (sampleRequest "HEAD" "/7")).w.status = some 405 ∧
    (handlePause ⟨true, 1⟩ .new (sampleRequest "HEAD" "")).2.Get "Allow" = some "GET, PUT" ∧
    (handleResume ⟨true, 1⟩ .new (sampleRequest "HEAD" "")).1 = ⟨true, 1⟩ ∧
    (handleLogLevel (fun _ => .ok 2) ⟨true, 1⟩ .new (sampleRequest "HEAD" "")).2.status
      = some 405 :=
  have h := method_not_allowed sampleEnv (fun _ => .ok 2) New ⟨true, 1⟩ (sampleRequest "HEAD" "/7")
  have h2 := method_not_allowed sampleEnv (fun _ => .ok 2) New ⟨true, 1⟩ (sampleRequest "HEAD" "")
  ⟨(h.1 (by decide)).1, (h2.2.1 (by decide)).2.1, (h2.2.2.1 (by decide)).2.2,
    (h2.2.2.2 (by decide)).1⟩

/-! ## Facts about `strconv.ParseInt` -/

theorem isDigit_iff (c : Char) : c.isDigit = true ↔ 48 ≤ c.toNat ∧ c.toNat ≤ 57 := by
  simp [Char.isDigit, Char.toNat, UInt32.le_def, BitVec.le_def, UInt32.toNat]

theorem digitValue_le (c : Char) (h : c.isDigit = true) : digitValue c ≤ 9 := by
  have h1 := (isDigit_iff c).1 h
  have h0 : '0'.toNat = 48 := rfl
  unfold digitValue
  omega

theorem parseUintLoop_cons_digit (acc : Nat) (c : Char) (cs : List Char)
    (hc : c.isDigit = true) :
    parseUintLoop acc (c :: cs) =
      if acc * 10 + digitValue c < 2 ^ 64 then parseUintLoop (acc * 10 + digitValue c) cs
      else .error .ErrRange := by
  have hd := digitValue_le c hc
  have hmax : maxUint64 = 18446744073709551615 := by decide
  have hdv : c.toNat - '0'.toNat = digitValue c := rfl
  simp only [parseUintLoop, hc, if_true, hdv, hmax]
  by_cases hA : acc ≥ 18446744073709551615 / 10 + 1
  · have hbig : ¬ acc * 10 + digitValue c < 2 ^ 64 := by omega
    simp only [hA, if_true, hbig, if_false]
  · by_cases hB : acc * 10 + digitValue c < 2 ^ 64
    · have hmod : (acc * 10 + digitValue c) % 2 ^ 64 = acc * 10 + digitValue c :=
        Nat.mod_eq_of_lt hB
      have h1 : ¬ (acc * 10 + digitValue c < acc * 10 ∨
          acc * 10 + digitValue c > 18446744073709551615) := by omega
      simp only [hA, if_false, hmod, h1, hB, if_true]
    · have hmod : (acc * 10 + digitValue c) % 2 ^ 64 = acc * 10 + digitValue c - 2 ^ 64 := by
        omega
      have h1 : acc * 10 + digitValue c - 2 ^ 64 < acc * 10 ∨
          acc * 10 + digitValue c - 2 ^ 64 > 18446744073709551615 := by omega
      simp only [hA, if_false, hmod, h1, hB, if_true]

theorem foldl_digits_ge (ds : List Char) :
    ∀ acc : Nat, acc ≤ ds.foldl (fun a c => a * 10 + digitValue c) acc := by
  induction ds with
  | nil => intro acc; simp
  | cons c cs ih =>
    intro acc
    simp only [List.foldl_cons]
    have := ih (acc * 10 + digitValue c)
    omega

/-- On a string of digits the loop of `ParseUint` computes the value of the numeral
continued from `acc`, or reports a range error when that value does not fit 64 bits. -/
theorem parseUintLoop_digits (ds : List Char) :
    ∀ acc : Nat, acc < 2 ^ 64 → (∀ c ∈ ds, c.isDigit = true) →
      parseUintLoop acc ds =
        if ds.foldl (fun a c => a * 10 + digitValue c) acc < 2 ^ 64 then
          .ok (ds.foldl (fun a c => a * 10 + digitValue c) acc)
        else .error .ErrRange := by
  induction ds with
  | nil =>
    intro acc hacc _
    simp only [parseUintLoop, List.foldl_nil, hacc, if_true]
  | cons c cs ih =>
    intro acc _ hall
    have hc : c.isDigit = true := hall c (List.mem_cons_self _ _)
    have hcs : ∀ x ∈ cs, x.isDigit = true := fun x hx => hall x (List.mem_cons_of_mem _ hx)
    rw [parseUintLoop_cons_digit acc c cs hc]
    simp only [List.foldl_cons]
    by_cases hB : acc * 10 + digitValue c < 2 ^ 64
    · simp only [hB, if_true]
      exact ih _ hB hcs
    · have hge := foldl_digits_ge cs (acc * 10 + digitValue c)
      have hbig : ¬ cs.foldl (fun a c => a * 10 + digitValue c) (acc * 10 + digitValue c)
          < 2 ^ 64 := by omega
      simp only [hB, if_false, hbig]

/-- A string with a byte that is not a digit makes the loop of `ParseUint` fail. -/
theorem parseUintLoop_nondigit (ds : List Char) :
    ∀ acc : Nat, (∃ c ∈ ds, c.isDigit = false) → ∃ k, parseUintLoop acc ds = .error k := by
  induction ds with
  | nil =>
    intro acc h
    obtain ⟨c, hc, -⟩ := h
    cases hc
  | cons c cs ih =>
    intro acc h
    cases hc : c.isDigit with
    | false => exact ⟨.ErrSyntax, by simp only [parseUintLoop, hc, Bool.false_eq_true, if_false]⟩
    | true =>
      have hrest : ∃ x ∈ cs, x.isDigit = false := by
        obtain ⟨x, hx, hxd⟩ := h
        rcases List.mem_cons.1 hx with rfl | hx2
        · rw [hc] at hxd
          cases hxd
        · exact ⟨x, hx2, hxd⟩
      rw [parseUintLoop_cons_digit acc c cs hc]
      by_cases hB : acc * 10 + digitValue c < 2 ^ 64
      · simp only [hB, if_true]
        exact ih _ hrest
      · exact ⟨.ErrRange, by simp only [hB, if_false]⟩

theorem ParseUint_of_digits (ds : List Char) (h : IsDigits ds) :
    ParseUint ds = if decimalValue ds < 2 ^ 64 then .ok (decimalValue ds) else .error .ErrRange := by
  obtain ⟨hne, hall⟩ := h
  cases ds with
  | nil => exact absurd rfl hne
  | cons c cs =>
    simp only [ParseUint]
    exact parseUintLoop_digits (c :: cs) 0 (by norm_num) hall

theorem ParseUint_of_not_digits (ds : List Char) (h : ¬ IsDigits ds) :
    ∃ k, ParseUint ds = .error k := by
  cases ds with
  | nil => exact ⟨.ErrSyntax, rfl⟩
  | cons c cs =>
    simp only [ParseUint]
    apply parseUintLoop_nondigit
    by_contra hno
    apply h
    refine ⟨by simp, ?_⟩
    intro x hx
    cases hxd : x.isDigit with
    | true => rfl
    | false => exact absurd ⟨x, hx, hxd⟩ hno

theorem ParseInt_cons (c : Char) (rest : List Char) :
    ParseInt (c :: rest) =
      match ParseUint (unsignedPart (c :: rest)) with
      | .error .ErrSyntax => .error ⟨"ParseInt", String.mk (c :: rest), .ErrSyntax⟩
      | .error .ErrRange => .error ⟨"ParseInt", String.mk (c :: rest), .ErrRange⟩
      | .ok un =>
        if !hasMinus (c :: rest) && un ≥ 2 ^ 63 then
          .error ⟨"ParseInt", String.mk (c :: rest), .ErrRange⟩
        else if hasMinus (c :: rest) && un > 2 ^ 63 then
          .error ⟨"ParseInt", String.mk (c :: rest), .ErrRange⟩
        else .ok (if hasMinus (c :: rest) then -(un : Int) else (un : Int)) := by
  have hs : (if c = '+' then rest else if c = '-' then rest else c :: rest) =
      unsignedPart (c :: rest) := by
    unfold unsignedPart
    by_cases h1 : c = '+'
    · simp [h1]
    · by_cases h2 : c = '-'
      · simp [h2]
      · simp [h1, h2]
  simp only [ParseInt, hs, hasMinus]

/-- A string that is a base-10 integer in the signed 64-bit range is parsed to its
value. -/
theorem ParseInt_of_valid (s : List Char) (h : IsInt64Decimal s) :
    ParseInt s = .ok (int64DecimalValue s) := by
  obtain ⟨hdig, hrange⟩ := h
  cases s with
  | nil => exact absurd rfl hdig.1
  | cons c rest =>
    rw [ParseInt_cons, ParseUint_of_digits _ hdig]
    cases hneg : hasMinus (c :: rest) with
    | true =>
      rw [hneg] at hrange
      simp only [if_true] at hrange
      have hlt : decimalValue (unsignedPart (c :: rest)) < 18446744073709551616 := by omega
      have hng : ¬ 9223372036854775808 < decimalValue (unsignedPart (c :: rest)) := by omega
      simp [hlt, hng, int64DecimalValue, hneg]
    | false =>
      rw [hneg] at hrange
      simp only [Bool.false_eq_true, if_false] at hrange
      have hlt : decimalValue (unsignedPart (c :: rest)) < 18446744073709551616 := by omega
      have hng : ¬ 9223372036854775808 ≤ decimalValue (unsignedPart (c :: rest)) := by omega
      simp [hlt, hng, int64DecimalValue, hneg]

/-- A string that is not a base-10 integer in the signed 64-bit range makes `ParseInt`
fail, with the string itself in the `Num` field of the error. -/
theorem ParseInt_of_invalid (s : List Char) (h : ¬ IsInt64Decimal s) :
    ∃ e, ParseInt s = .error e ∧ e.Num = String.mk s := by
  cases s with
  | nil => exact ⟨⟨"ParseInt", "", .ErrSyntax⟩, rfl, rfl⟩
  | cons c rest =>
    rw [ParseInt_cons]
    by_cases hdig : IsDigits (unsignedPart (c :: rest))
    · rw [ParseUint_of_digits _ hdig]
      by_cases hlt : decimalValue (unsignedPart (c :: rest)) < 2 ^ 64
      · simp only [hlt, if_true]
        cases hneg : hasMinus (c :: rest) with
        | true =>
          have hgt : 9223372036854775808 < decimalValue (unsignedPart (c :: rest)) := by
            by_contra hng
            apply h
            refine ⟨hdig, ?_⟩
            rw [hneg]
            simp only [if_true]
            omega
          exact ⟨⟨"ParseInt", String.mk (c :: rest), .ErrRange⟩, by simp [hgt], rfl⟩
        | false =>
          have hge : 9223372036854775808 ≤ decimalValue (unsignedPart (c :: rest)) := by
            by_contra hng
            apply h
            refine ⟨hdig, ?_⟩
            rw [hneg]
            simp only [Bool.false_eq_true, if_false]
            omega
          exact ⟨⟨"ParseInt", String.mk (c :: rest), .ErrRange⟩, by simp [hge], rfl⟩
      · simp only [hlt, if_false]
        exact ⟨⟨"ParseInt", String.mk (c :: rest), .ErrRange⟩, rfl, rfl⟩
    · obtain ⟨k, hk⟩ := ParseUint_of_not_digits _ hdig
      rw [hk]
      cases k with
      | ErrSyntax => exact ⟨⟨"ParseInt", String.mk (c :: rest), .ErrSyntax⟩, rfl, rfl⟩
      | ErrRange => exact ⟨⟨"ParseInt", String.mk (c :: rest), .ErrRange⟩, rfl, rfl⟩

theorem parseTaskID_eq (req : Request) :
    parseTaskID req =
      match ParseInt (taskIDStringOf req) with
      | .error e => .error e
      | .ok taskID =>
        .ok (taskID, String.mk
          (if 0 ≤ indexByte (trimPrefixChars req.Path.data ['/']) '/' then
            (trimPrefixChars req.Path.data ['/']).drop
              ((indexByte (trimPrefixChars req.Path.data ['/']) '/').toNat + 1)
          else [])) := rfl

theorem parseTaskID_of_valid (req : Request) (h : IsInt64Decimal (taskIDStringOf req)) :
    ∃ verb, parseTaskID req = .ok (int64DecimalValue (taskIDStringOf req), verb) := by
  rw [parseTaskID_eq, ParseInt_of_valid _ h]
  exact ⟨_, rfl⟩

theorem parseTaskID_of_invalid (req : Request) (h : ¬ IsInt64Decimal (taskIDStringOf req)) :
    ∃ e, parseTaskID req = .error e ∧ e.Num = String.mk (taskIDStringOf req) := by
  obtain ⟨e, he, hnum⟩ := ParseInt_of_invalid _ h
  rw [parseTaskID_eq, he]
  exact ⟨e, rfl, hnum⟩

theorem not_isInt64Decimal_nil : ¬ IsInt64Decimal [] := fun h => h.1.1 rfl

/-! ## Parsing the task id of a path -/

theorem digitChar_isDigit (k : Nat) (h : k < 10) : (digitChar k).isDigit = true := by
  interval_cases k <;> rfl

theorem digitChar_value (k : Nat) (h : k < 10) : digitValue (digitChar k) = k := by
  interval_cases k <;> rfl

theorem decimalValue_append_one (xs : List Char) (c : Char) :
    decimalValue (xs ++ [c]) = decimalValue xs * 10 + digitValue c := by
  simp [decimalValue, List.foldl_append]

theorem decimalDigits_spec :
    ∀ fuel n : Nat, n < fuel →
      IsDigits (decimalDigits fuel n) ∧ decimalValue (decimalDigits fuel n) = n := by
  intro fuel
  induction fuel with
  | zero =>
    intro n h
    omega
  | succ f ih =>
    intro n h
    unfold decimalDigits
    by_cases h10 : n < 10
    · simp only [h10, if_true]
      refine ⟨⟨by simp, ?_⟩, ?_⟩
      · intro c hc
        rw [List.mem_singleton] at hc
        rw [hc]
        exact digitChar_isDigit n h10
      · simp [decimalValue, digitChar_value n h10]
    · simp only [h10, if_false]
      have hdiv : n / 10 < f := by omega
      obtain ⟨⟨-, hall⟩, hval⟩ := ih (n / 10) hdiv
      have hmod : n % 10 < 10 := Nat.mod_lt _ (by norm_num)
      refine ⟨⟨by simp, ?_⟩, ?_⟩
      · intro c hc
        rcases List.mem_append.1 hc with hc1 | hc2
        · exact hall c hc1
        · rw [List.mem_singleton] at hc2
          rw [hc2]
          exact digitChar_isDigit _ hmod
      · rw [decimalValue_append_one, hval, digitChar_value _ hmod]
        omega

theorem FormatUint_spec (n : Nat) :
    IsDigits (FormatUint n) ∧ decimalValue (FormatUint n) = n :=
  decimalDigits_spec (n + 1) n (Nat.lt_succ_self n)

theorem unsigned_of_digits (ds : List Char) (h : IsDigits ds) :
    unsignedPart ds = ds ∧ hasMinus ds = false := by
  obtain ⟨hne, hall⟩ := h
  cases ds with
  | nil => exact absurd rfl hne
  | cons c cs =>
    have hc : c.isDigit = true := hall c (List.mem_cons_self _ _)
    have h1 : c ≠ '+' := by
      intro e
      rw [e] at hc
      exact absurd hc (by decide)
    have h2 : c ≠ '-' := by
      intro e
      rw [e] at hc
      exact absurd hc (by decide)
    simp [unsignedPart, hasMinus, h1, h2]

/-- The numeral written for a signed 64-bit integer is a base-10 integer in the signed
64-bit range, and denotes that integer. -/
theorem FormatInt_spec (n : Int) (h1 : -2 ^ 63 ≤ n) (h2 : n < 2 ^ 63) :
    IsInt64Decimal (FormatInt n) ∧ int64DecimalValue (FormatInt n) = n := by
  unfold FormatInt
  by_cases hneg : n < 0
  · obtain ⟨hd, hv⟩ := FormatUint_spec n.natAbs
    simp only [hneg, if_true]
    have hu : unsignedPart ('-' :: FormatUint n.natAbs) = FormatUint n.natAbs := by
      simp [unsignedPart]
    have hm : hasMinus ('-' :: FormatUint n.natAbs) = true := by simp [hasMinus]
    refine ⟨⟨by rw [hu]; exact hd, ?_⟩, ?_⟩
    · rw [hm, hu, hv]
      simp only [if_true]
      omega
    · unfold int64DecimalValue
      rw [hm, hu, hv]
      simp only [if_true]
      omega
  · obtain ⟨hd, hv⟩ := FormatUint_spec n.toNat
    simp only [hneg, if_false]
    obtain ⟨hu, hm⟩ := unsigned_of_digits _ hd
    refine ⟨⟨by rw [hu]; exact hd, ?_⟩, ?_⟩
    · rw [hm, hu, hv]
      simp only [Bool.false_eq_true, if_false]
      omega
    · unfold int64DecimalValue
      rw [hm, hu, hv]
      simp only [Bool.false_eq_true, if_false]
      omega

theorem FormatInt_no_slash (n : Int) : ∀ c ∈ FormatInt n, c ≠ '/' := by
  have hdig : ∀ k : Nat, ∀ c ∈ FormatUint k, c ≠ '/' := by
    intro k c hc e
    have hd := (FormatUint_spec k).1.2 c hc
    rw [e] at hd
    exact absurd hd (by decide)
  intro c hc
  unfold FormatInt at hc
  by_cases hneg : n < 0
  · simp only [hneg, if_true, List.mem_cons] at hc
    rcases hc with rfl | hc
    · decide
    · exact hdig _ c hc
  · simp only [hneg, if_false] at hc
    exact hdig _ c hc

theorem indexByte_nonneg_or (xs : List Char) (b : Char) :
    0 ≤ indexByte xs b ∨ indexByte xs b = -1 := by
  induction xs with
  | nil => right; rfl
  | cons x xs ih =>
    unfold indexByte
    by_cases hx : x = b
    · left; simp [hx]
    · rcases ih with h | h
      · left
        simp only [hx, if_false, h, if_true]
        omega
      · right
        simp [hx, h]

theorem indexByte_append (xs ys : List Char) (b : Char) (h : ∀ c ∈ xs, c ≠ b) :
    indexByte (xs ++ b :: ys) b = xs.length := by
  induction xs with
  | nil => simp [indexByte]
  | cons x xs ih =>
    have hx : x ≠ b := h x (List.mem_cons_self _ _)
    have ih2 := ih (fun c hc => h c (List.mem_cons_of_mem _ hc))
    simp [indexByte, hx, ih2]

theorem indexByte_absent (xs : List Char) (b : Char) (h : ∀ c ∈ xs, c ≠ b) :
    indexByte xs b = -1 := by
  induction xs with
  | nil => rfl
  | cons x xs ih =>
    have hx : x ≠ b := h x (List.mem_cons_self _ _)
    have ih2 := ih (fun c hc => h c (List.mem_cons_of_mem _ hc))
    simp [indexByte, hx, ih2]

theorem trim_leading_slash (xs : List Char) : trimPrefixChars ('/' :: xs) ['/'] = xs := by
  simp [trimPrefixChars, hasPrefixChars]

/-- C12: for every signed 64-bit integer `n` and every string `verb`, which may contain
`/`, `parseTaskID` on the path `"/" ++ decimal(n) ++ "/" ++ verb` returns `(n, verb)`
without error, and on `"/" ++ decimal(n)` returns `(n, "")` without error: only the
first `/` after the id separates the id-string from the verb. -/
theorem parseTaskID_splits_once (n : Int) (verb : String) (method accept : String)
    (body : Except String String) (h1 : -2 ^ 63 ≤ n) (h2 : n < 2 ^ 63) :
    parseTaskID ⟨method, String.mk ('/' :: (FormatInt n ++ '/' :: verb.data)), accept, body⟩
      = .ok (n, verb) ∧
    parseTaskID ⟨method, String.mk ('/' :: FormatInt n), accept, body⟩ = .ok (n, "") := by
  obtain ⟨hvalid, hvalue⟩ := FormatInt_spec n h1 h2
  have hparse : ParseInt (FormatInt n) = .ok n := by
    rw [ParseInt_of_valid _ hvalid, hvalue]
  have hns := FormatInt_no_slash n
  constructor
  · have hidx := indexByte_append (FormatInt n) verb.data '/' hns
    simp only [parseTaskID, trim_leading_slash, hidx, Int.natCast_nonneg, if_true,
      Int.toNat_ofNat, List.take_left, hparse]
    have hdrop : List.drop ((FormatInt n).length + 1) (FormatInt n ++ '/' :: verb.data)
        = verb.data := by
      rw [List.drop_append_eq_append_drop]
      simp
    rw [hdrop]
  · have hidx := indexByte_absent (FormatInt n) '/' hns
    simp only [parseTaskID, trim_leading_slash, hidx]
    simp [hparse]

/-- Witness for C12: the id 7 with the verb `front/x`. -/
theorem parseTaskID_splits_once_witness :
    parseTaskID ⟨"PATCH", String.mk ('/' :: (FormatInt 7 ++ '/' :: "front/x".data)), "",
      .ok ""⟩ = .ok (7, "front/x") :=
  (parseTaskID_splits_once 7 "front/x" "PATCH" "" (.ok "") (by decide) (by decide)).1

/-! ## Dispatch of GET on `/tasks` -/

theorem getTask_isListing (l : Lightning) (k v : String) :
    IsTaskListing (handleGetTask l (ResponseWriter.new.Set k v)) := by
  simp [IsTaskListing, handleGetTask, ResponseWriter.Set, ResponseWriter.new,
    ResponseWriter.WriteHeader, ResponseWriter.Write]

theorem writeJSONError_fresh (k v : String) (code : Nat) (pfx : String) (err : Option String) :
    (writeJSONError (ResponseWriter.new.Set k v) code pfx err).status = some code ∧
    ∃ msg, (writeJSONError (ResponseWriter.new.Set k v) code pfx err).body = [.jsonError msg] := by
  simp [writeJSONError, ResponseWriter.Set, ResponseWriter.new, ResponseWriter.WriteHeader,
    ResponseWriter.Write]

theorem writeBytesCompressed_fresh (k v : String) (req : Request) (b : String) :
    (writeBytesCompressed (ResponseWriter.new.Set k v) req b).status = some 200 ∧
    ∃ z, (writeBytesCompressed (ResponseWriter.new.Set k v) req b).body = [.bytes b z] := by
  unfold writeBytesCompressed
  split <;>
    simp [ResponseWriter.Set, ResponseWriter.new, ResponseWriter.WriteHeader,
      ResponseWriter.Write]

/-- The single-task lookup answers 404, 500 or 200, and never writes a listing. -/
theorem getOneTask_response (env : Env) (l : Lightning) (req : Request) (id : Int)
    (k v : String) :
    ((handleGetOneTask env l (ResponseWriter.new.Set k v) req id).status = some 404 ∨
      (handleGetOneTask env l (ResponseWriter.new.Set k v) req id).status = some 500 ∨
      (handleGetOneTask env l (ResponseWriter.new.Set k v) req id).status = some 200) ∧
    ¬ IsTaskListing (handleGetOneTask env l (ResponseWriter.new.Set k v) req id) := by
  unfold handleGetOneTask
  simp only []
  split
  · obtain ⟨hs, msg, hb⟩ := writeJSONError_fresh k v 404 "task ID not found" none
    refine ⟨Or.inl hs, ?_⟩
    rintro ⟨-, cur, q, hq⟩
    rw [hb] at hq
    cases hq
  · split
    · rename_i e _
      obtain ⟨hs, msg, hb⟩ := writeJSONError_fresh k v 500 "unable to serialize task" (some e)
      refine ⟨Or.inr (Or.inl hs), ?_⟩
      rintro ⟨-, cur, q, hq⟩
      rw [hb] at hq
      cases hq
    · rename_i json _
      obtain ⟨hs, z, hb⟩ := writeBytesCompressed_fresh k v req json
      refine ⟨Or.inr (Or.inr hs), ?_⟩
      rintro ⟨-, cur, q, hq⟩
      rw [hb] at hq
      cases hq

/-- C13: a GET on `/tasks...` is dispatched by the id-string (the path without its
leading `/`, up to its first `/`): the collection listing (200, `{current, queue}`) is
served exactly when the id-string is empty; the answer is 400 exactly when the id-string
is not empty and is not a base-10 integer in the signed 64-bit range; otherwise the
single task with the parsed id is looked up.  The state does not change. -/
theorem get_dispatch_trichotomy (env : Env) (l : Lightning) (req : Request)
    (hm : req.Method = "GET") :
    (IsTaskListing (handleTask env l .new req).w ↔ taskIDStringOf req = []) ∧
    (taskIDStringOf req = [] →
      (handleTask env l .new req).w =
        handleGetTask l (ResponseWriter.new.Set "Content-Type" "application/json")) ∧
    ((handleTask env l .new req).w.status = some 400 ↔
      (taskIDStringOf req ≠ [] ∧ ¬ IsInt64Decimal (taskIDStringOf req))) ∧
    (IsInt64Decimal (taskIDStringOf req) →
      (handleTask env l .new req).w =
        handleGetOneTask env l (ResponseWriter.new.Set "Content-Type" "application/json") req
          (int64DecimalValue (taskIDStringOf req))) ∧
    (handleTask env l .new req).l = l ∧ (handleTask env l .new req).invoked = [] := by
  by_cases hvalid : IsInt64Decimal (taskIDStringOf req)
  · -- the lookup
    obtain ⟨verb, hp⟩ := parseTaskID_of_valid req hvalid
    have hne : taskIDStringOf req ≠ [] := by
      intro e
      rw [e] at hvalid
      exact not_isInt64Decimal_nil hvalid
    have hres : handleTask env l .new req =
        ⟨l, handleGetOneTask env l (ResponseWriter.new.Set "Content-Type" "application/json")
          req (int64DecimalValue (taskIDStringOf req)), []⟩ := by
      simp [handleTask, hm, hp]
    obtain ⟨hst, hnl⟩ := getOneTask_response env l req (int64DecimalValue (taskIDStringOf req))
      "Content-Type" "application/json"
    rw [hres]
    refine ⟨⟨fun h => absurd h hnl, fun h => absurd h hne⟩, fun h => absurd h hne, ?_,
      fun _ => rfl, rfl, rfl⟩
    constructor
    · intro h400
      rcases hst with h | h | h <;> rw [h] at h400 <;> cases h400
    · rintro ⟨-, hno⟩
      exact absurd hvalid hno
  · obtain ⟨e, hp, hnum⟩ := parseTaskID_of_invalid req hvalid
    by_cases hempty : taskIDStringOf req = []
    · -- the listing
      have hnum2 : e.Num = "" := by rw [hnum, hempty]
      have hres : handleTask env l .new req =
          ⟨l, handleGetTask l (ResponseWriter.new.Set "Content-Type" "application/json"), []⟩ := by
        simp [handleTask, hm, hp, hnum2]
      have hlist := getTask_isListing l "Content-Type" "application/json"
      rw [hres]
      refine ⟨⟨fun _ => hempty, fun _ => hlist⟩, fun _ => rfl, ?_,
        fun h => absurd h hvalid, rfl, rfl⟩
      constructor
      · intro h400
        rw [hlist.1] at h400
        cases h400
      · rintro ⟨hne, -⟩
        exact absurd hempty hne
    · -- the bad request
      have hnum2 : ¬ e.Num = "" := by
        intro h
        rw [hnum] at h
        exact hempty (congrArg String.data h)
      have hres : handleTask env l .new req =
          ⟨l, writeJSONError (ResponseWriter.new.Set "Content-Type" "application/json") 400
            "invalid task ID" (some e.Error), []⟩ := by
        simp [handleTask, hm, hp, hnum2]
      obtain ⟨hs, msg, hb⟩ := writeJSONError_fresh "Content-Type" "application/json" 400
        "invalid task ID" (some e.Error)
      rw [hres]
      refine ⟨⟨?_, fun h => absurd h hempty⟩, fun h => absurd h hempty,
        ⟨fun _ => ⟨hempty, hvalid⟩, fun _ => hs⟩, fun h => absurd h hvalid, rfl, rfl⟩
      rintro ⟨h200, -⟩
      rw [hs] at h200
      cases h200

/-- Witness for C13: GET on the stripped path `/x7` is answered 400. -/
theorem get_dispatch_trichotomy_witness :
    (handleTask sampleEnv New .new (sampleRequest "GET" "/x7")).w.status = some 400 :=
  (get_dispatch_trichotomy sampleEnv New (sampleRequest "GET" "/x7") rfl).2.2.1.2
    (by decide)

/-! ## DELETE and PATCH with a malformed id -/

/-- C14, as stated, fails: outside server mode a PATCH on the stripped path `/abc/front`,
whose id-string `abc` is not an integer, is answered 501 and not 400. -/
theorem patch_invalid_id_outside_server_mode :
    ¬ IsInt64Decimal (taskIDStringOf (sampleRequest "PATCH" "/abc/front")) ∧
    (handleTask sampleEnv New .new (sampleRequest "PATCH" "/abc/front")).w.status = some 501 ∧
    (handleTask sampleEnv New .new (sampleRequest "PATCH" "/abc/front")).w.status ≠ some 400 := by
  decide

/-- C14, amended: when the id-string is not a base-10 signed 64-bit integer (the empty
id-string included), a DELETE is answered 400 in every supervisor state; a PATCH is
answered 400 when the queue exists (server mode) and 501 when it does not; in all these
cases the state is unchanged and no cancel function is invoked. -/
theorem invalid_id_delete_patch (env : Env) (l : Lightning) (req : Request)
    (hbad : ¬ IsInt64Decimal (taskIDStringOf req)) :
    (req.Method = "DELETE" →
      (handleTask env l .new req).w.status = some 400 ∧
      (handleTask env l .new req).l = l ∧ (handleTask env l .new req).invoked = []) ∧
    (req.Method = "PATCH" →
      (l.taskCfgs ≠ none → (handleTask env l .new req).w.status = some 400) ∧
      (l.taskCfgs = none → (handleTask env l .new req).w.status = some 501) ∧
      (handleTask env l .new req).l = l ∧ (handleTask env l .new req).invoked = []) := by
  obtain ⟨e, hp, -⟩ := parseTaskID_of_invalid req hbad
  constructor
  · intro hm
    simp [handleTask, hm, handleDeleteOneTask, hp, writeJSONError, ResponseWriter.Set,
      ResponseWriter.new, ResponseWriter.WriteHeader, ResponseWriter.Write]
  · intro hm
    cases hq : l.taskCfgs with
    | none =>
      simp [handleTask, hm, handlePatchOneTask, hq, writeJSONError, ResponseWriter.Set,
        ResponseWriter.new, ResponseWriter.WriteHeader, ResponseWriter.Write]
    | some q =>
      simp [handleTask, hm, handlePatchOneTask, hq, hp, writeJSONError, ResponseWriter.Set,
        ResponseWriter.new, ResponseWriter.WriteHeader, ResponseWriter.Write]

/-- Witness for C14: DELETE on the stripped path `/abc` while task 7 is in flight. -/
theorem invalid_id_delete_patch_witness :
    (handleTask sampleEnv (runRegister New (sampleConfig 7) 0) .new
      (sampleRequest "DELETE" "/abc")).w.status = some 400 :=
  ((invalid_id_delete_patch sampleEnv (runRegister New (sampleConfig 7) 0)
    (sampleRequest "DELETE" "/abc") (by decide)).1 rfl).1

/-! ## Methods and routes -/

/-- C11, as stated, fails: with task 7 queued, DELETE on `/tasks/7/front` is answered 200
and removes task 7 from the queue, and POST on `/progress/task` is answered 200. -/
theorem route_methods_not_checked :
    (handleTask sampleEnv { New with taskCfgs := some ⟨[sampleConfig 7]⟩ } .new
      (sampleRequest "DELETE" "/7/front")).w.status = some 200 ∧
    (handleTask sampleEnv { New with taskCfgs := some ⟨[sampleConfig 7]⟩ } .new
      (sampleRequest "DELETE" "/7/front")).l.taskCfgs = some ⟨[]⟩ ∧
    (handleProgressTask (.ok "progress") .new (sampleRequest "POST" "")).status = some 200 := by
  decide

theorem progressTask_status (m : Except String String) (req : Request) :
    (handleProgressTask m .new req).status = some 200 ∨
    (handleProgressTask m .new req).status = some 500 := by
  unfold handleProgressTask
  cases m with
  | ok res => exact Or.inl (writeBytesCompressed_fresh _ _ req res).1
  | error e =>
    right
    simp [ResponseWriter.Set, ResponseWriter.new, ResponseWriter.WriteHeader,
      ResponseWriter.Write]

theorem progressTable_status (m : Except (String × Bool) String) (req : Request) :
    (handleProgressTable m .new req).status = some 200 ∨
    (handleProgressTable m .new req).status = some 404 ∨
    (handleProgressTable m .new req).status = some 500 := by
  unfold handleProgressTable
  cases m with
  | ok res => exact Or.inl (writeBytesCompressed_fresh _ _ req res).1
  | error e =>
    obtain ⟨msg, nf⟩ := e
    cases nf <;>
      simp [ResponseWriter.Set, ResponseWriter.new, ResponseWriter.WriteHeader,
        ResponseWriter.Write]

/-- The progress handlers do not look at the method: every method is served alike, and
the answer is never 405. -/
theorem progress_handlers_ignore_method (req : Request) :
    (∀ (m : Except String String) (method : String),
      handleProgressTask m .new { req with Method := method } = handleProgressTask m .new req ∧
      (handleProgressTask m .new req).status ≠ some 405) ∧
    (∀ (m : Except (String × Bool) String) (method : String),
      handleProgressTable m .new { req with Method := method }
        = handleProgressTable m .new req ∧
      (handleProgressTable m .new req).status ≠ some 405) := by
  refine ⟨?_, ?_⟩
  · intro m method
    refine ⟨?_, ?_⟩
    · cases m <;> simp [handleProgressTask, writeBytesCompressed]
    · intro h
      rcases progressTask_status m req with h2 | h2 <;> rw [h2] at h <;> cases h
  · intro m method
    refine ⟨?_, ?_⟩
    · cases m <;> simp [handleProgressTable, writeBytesCompressed]
    · intro h
      rcases progressTable_status m req with h2 | h2 | h2 <;> rw [h2] at h <;> cases h

/-- C11, amended: on `/tasks` and `/tasks/...` the method is checked per handler and not
per route.  Every method other than GET, POST, DELETE and PATCH is answered 405 and no
state is mutated; a DELETE is served by its id alone, whatever follows the id in the
path, and a POST is served whatever the path. -/
theorem method_checked_per_handler (env : Env) (l : Lightning) (req : Request) :
    ((req.Method ≠ "GET" ∧ req.Method ≠ "POST" ∧ req.Method ≠ "DELETE" ∧
        req.Method ≠ "PATCH") →
      (handleTask env l .new req).w.status = some 405 ∧
      (handleTask env l .new req).l = l ∧ (handleTask env l .new req).invoked = []) ∧
    (∀ (req2 : Request) (id : Int) (verb verb2 : String),
      req.Method = "DELETE" → req2.Method = "DELETE" →
      parseTaskID req = .ok (id, verb) → parseTaskID req2 = .ok (id, verb2) →
      handleTask env l .new req = handleTask env l .new req2) ∧
    (∀ path : String, req.Method = "POST" →
      handleTask env l .new { req with Path := path } = handleTask env l .new req) := by
  refine ⟨?_, ?_, ?_⟩
  · rintro ⟨h1, h2, h3, h4⟩
    simp [handleTask, h1, h2, h3, h4, writeJSONError, ResponseWriter.Set,
      ResponseWriter.new, ResponseWriter.WriteHeader, ResponseWriter.Write]
  · intro req2 id verb verb2 hm hm2 hp hp2
    rw [handleTask_delete env l req hm, handleTask_delete env l req2 hm2]
    simp only [handleDeleteOneTask, hp, hp2]
  · intro path hm
    have hm2 : ({ req with Path := path } : Request).Method = "POST" := hm
    simp [handleTask, hm, hm2, handlePostTask]

/-- Witness for C11: HEAD on the stripped path `/7/front` is answered 405. -/
theorem method_checked_per_handler_witness :
    (handleTask sampleEnv New .new (sampleRequest "HEAD" "/7/front")).w.status = some 405 :=
  ((method_checked_per_handler sampleEnv New (sampleRequest "HEAD" "/7/front")).1
    (by decide)).1

/-! ## The exit paths of `run` -/

theorem runAfterTLS_effects (calls : RunCalls) (taskCfg : Config) :
    ∀ e ∈ (runAfterTLS calls taskCfg).2,
      (∃ dbMetas, e = .broadcastInit dbMetas) ∨ e = .closeProcedure := by
  intro e he
  unfold runAfterTLS at he
  split at he
  · simp at he
  · split at he
    · simp at he
    · split at he
      · simp at he
      · split at he
        · simp at he
        · split at he
          · simp at he
          · simp at he
          · split at he
            · simp at he
            · split at he
              · simp only [List.mem_singleton] at he
                exact Or.inl ⟨_, he⟩
              · simp only [List.mem_cons, List.mem_singleton, List.not_mem_nil, or_false] at he
                rcases he with he | he
                · exact Or.inl ⟨_, he⟩
                · exact Or.inr he

theorem runBody_effects (calls : RunCalls) (taskCfg : Config) :
    ∀ e ∈ (runBody calls taskCfg).2,
      (∃ dbMetas, e = .broadcastInit dbMetas) ∨ e = .closeProcedure ∨ e = .deregisterTLS := by
  intro e he
  unfold runBody at he
  split at he
  · simp at he
  · split at he
    · simp at he
    · simp only [List.mem_append, List.mem_singleton] at he
      rcases he with he | he
      · rcases runAfterTLS_effects calls taskCfg e he with h | h
        · exact Or.inl h
        · exact Or.inr (Or.inl h)
      · exact Or.inr (Or.inr he)

/-- C15: on every exit path of `run` the per-task cancel function has been invoked, the
registry holds no cancel function when `run` returns, and the error `run` returns is the
one broadcast as task-end, which is broadcast once and last. -/
theorem run_exit_cancels_clears_broadcasts (l : Lightning) (taskCfg : Config)
    (cancel : CancelFunc) (calls : RunCalls) (served : Lightning → Lightning) :
    (run l taskCfg cancel calls served).l.cancel = none ∧
    RunEffect.cancel cancel ∈ (run l taskCfg cancel calls served).effects ∧
    (∀ err, (run l taskCfg cancel calls served).outcome = .returned err →
      (run l taskCfg cancel calls served).effects.getLast? = some (.broadcastEnd err) ∧
      ∀ e2, RunEffect.broadcastEnd e2 ∈ (run l taskCfg cancel calls served).effects →
        e2 = err) := by
  refine ⟨rfl, ?_, ?_⟩
  · simp [run]
  · intro err hout
    have hout2 : (runBody calls taskCfg).1 = .returned err := hout
    refine ⟨?_, ?_⟩
    · have hshape : (run l taskCfg cancel calls served).effects =
          ([.broadcastStart] ++ (runBody calls taskCfg).2 ++ [.cancel cancel])
            ++ [.broadcastEnd err] := by
        simp [run, hout2, errAtExit]
      rw [hshape, List.getLast?_concat]
    · intro e2 hmem
      simp only [run, hout2, errAtExit, List.mem_append, List.mem_cons, List.mem_singleton,
        List.not_mem_nil, or_false, reduceCtorEq, false_or, RunEffect.broadcastEnd.injEq]
        at hmem
      rcases hmem with hmem | hmem
      · rcases runBody_effects calls taskCfg _ hmem with ⟨d, h⟩ | h | h <;> cases h
      · exact hmem

/-- The outcome of `run` on each of its exit paths. -/
theorem run_outcome_by_path (l : Lightning) (taskCfg : Config) (cancel : CancelFunc)
    (calls : RunCalls) (served : Lightning → Lightning) :
    (∀ r, calls.skipRunTask = some r →
      (run l taskCfg cancel calls served).outcome = .returned r) ∧
    (∀ e, calls.skipRunTask = none → calls.registerMySQL = some e →
      (run l taskCfg cancel calls served).outcome = .returned (some e)) ∧
    (∀ e, calls.skipRunTask = none → calls.registerMySQL = none →
      calls.glueSupplied = false → calls.dbFromConfig = some e →
      (run l taskCfg cancel calls served).outcome = .returned (some e)) := by
  refine ⟨?_, ?_, ?_⟩
  · intro r h
    simp [run, runBody, h]
  · intro e h1 h2
    simp [run, runBody, h1, h2]
  · intro e h1 h2 h3 h4
    simp [run, runBody, runAfterTLS, h1, h2, h3, h4]

/-! ## The loop of `RunServer` -/

theorem runServerLoop_spec (tasks : List (Config × Option String)) (popErr : String)
    (later : List (Except String (Config × Option String))) :
    ∀ g : Globals,
      (runServerLoop g (tasks.map .ok ++ .error popErr :: later)).returned = some popErr ∧
      (runServerLoop g (tasks.map .ok ++ .error popErr :: later)).actions
        = expectedActions tasks ∧
      (runServerLoop g (tasks.map .ok ++ .error popErr :: later)).globals.paused
        = (g.paused || tasks.any (fun t => t.2.isSome)) ∧
      (runServerLoop g (tasks.map .ok ++ .error popErr :: later)).globals.logLevel
        = g.logLevel := by
  induction tasks with
  | nil =>
    intro g
    simp [runServerLoop, expectedActions]
  | cons t ts ih =>
    intro g
    obtain ⟨task, err⟩ := t
    cases err with
    | none =>
      obtain ⟨h1, h2, h3, h4⟩ := ih g
      simp [runServerLoop, expectedActions, actionsFor, h1, h2, h3, h4]
    | some e =>
      obtain ⟨h1, h2, h3, h4⟩ := ih { g with paused := true }
      simp [runServerLoop, expectedActions, actionsFor, h1, h2, h3, h4]

theorem tasksRun_expected (tasks : List (Config × Option String)) :
    tasksRun (expectedActions tasks) = tasks.map Prod.fst := by
  induction tasks with
  | nil => rfl
  | cons t ts ih =>
    obtain ⟨task, err⟩ := t
    cases err <;> simp [expectedActions, actionsFor, tasksRun, ih]

/-- C16: when `Pop` returns the tasks of a finite sequence, whatever the outcome of each,
and then an error, `RunServer` runs each task once in dequeue order, calls `Pause` right
after each task whose `run` returned an error and only then, goes on after a failing
task, and returns the error of `Pop`. -/
theorem runServer_runs_all_then_returns_pop_error (l : Lightning) (g : Globals)
    (tasks : List (Config × Option String)) (popErr : String)
    (later : List (Except String (Config × Option String))) :
    (RunServer l g (tasks.map .ok ++ .error popErr :: later)).2.returned = some popErr ∧
    tasksRun (RunServer l g (tasks.map .ok ++ .error popErr :: later)).2.actions
      = tasks.map Prod.fst ∧
    (RunServer l g (tasks.map .ok ++ .error popErr :: later)).2.actions
      = expectedActions tasks ∧
    (RunServer l g (tasks.map .ok ++ .error popErr :: later)).2.globals.paused
      = (g.paused || tasks.any (fun t => t.2.isSome)) := by
  obtain ⟨h1, h2, h3, -⟩ := runServerLoop_spec tasks popErr later g
  refine ⟨h1, ?_, h2, h3⟩
  show tasksRun (runServerLoop g (tasks.map .ok ++ .error popErr :: later)).actions = _
  rw [h2, tasksRun_expected]

/-! ## The sum of the largest tables -/

theorem wrapInt64_of_range (x : Int) (h1 : -2 ^ 63 ≤ x) (h2 : x < 2 ^ 63) : wrapInt64 x = x := by
  unfold wrapInt64
  omega

theorem wrapInt64_add (a b : Int) : wrapInt64 (wrapInt64 a + b) = wrapInt64 (a + b) := by
  unfold wrapInt64
  omega

/-- The summing loop adds, with wrap-around, the first `tableConcurrency - i` elements
of the rest of the slice to the accumulator. -/
theorem sumTopLoop_eq (tc : Int) (xs : List Int) :
    ∀ (i : Nat) (acc : Int), -2 ^ 63 ≤ acc → acc < 2 ^ 63 →
      sumTopLoop tc i xs acc = wrapInt64 (acc + (xs.take (tc.toNat - i)).sum) := by
  induction xs with
  | nil =>
    intro i acc h1 h2
    simp [sumTopLoop, wrapInt64_of_range acc h1 h2]
  | cons x xs ih =>
    intro i acc h1 h2
    unfold sumTopLoop
    by_cases hlt : (i : Int) < tc
    · simp only [hlt, if_true]
      have hr := wrapInt64_range (acc + x)
      rw [ih (i + 1) _ hr.1 hr.2, wrapInt64_add]
      have hk : tc.toNat - i = (tc.toNat - (i + 1)) + 1 := by omega
      rw [hk, List.take_succ_cons, List.sum_cons, add_assoc]
    · simp only [hlt, if_false]
      have hk : tc.toNat - i = 0 := by omega
      rw [hk, List.take_zero, List.sum_nil, add_zero, wrapInt64_of_range acc h1 h2]

theorem topNTotalSize_eq (cfg : Config) (dbsMeta : List MDDatabaseMeta) :
    topNTotalSize cfg dbsMeta =
      wrapInt64 ((sortDescending (tableTotalSizes dbsMeta)).take
        cfg.App.TableConcurrency.toNat).sum := by
  unfold topNTotalSize
  rw [sumTopLoop_eq _ _ 0 0 (by norm_num) (by norm_num)]
  simp

/-- In a list sorted in descending order, no sublist sums to more than the prefix of the
same length. -/
theorem sublist_sum_le_take (L : List Int) (hs : L.Sorted (fun a b => a ≥ b)) :
    ∀ s : List Int, s.Sublist L → s.sum ≤ (L.take s.length).sum := by
  induction L with
  | nil =>
    intro s hsub
    rw [List.sublist_nil] at hsub
    simp [hsub]
  | cons x L ih =>
    intro s hsub
    have hx : ∀ b ∈ L, x ≥ b := (List.sorted_cons.1 hs).1
    have hL : L.Sorted (fun a b => a ≥ b) := (List.sorted_cons.1 hs).2
    cases hsub with
    | cons _ hsub2 =>
      have h1 := ih hL s hsub2
      cases hlen : s.length with
      | zero =>
        have hnil : s = [] := List.length_eq_zero.1 hlen
        simp [hnil]
      | succ m =>
        rw [hlen] at h1
        have hm : m < L.length := by
          have := hsub2.length_le
          omega
        rw [List.sum_take_succ L m hm] at h1
        have hget : L[m] ≤ x := hx _ (List.getElem_mem _)
        rw [List.take_succ_cons, List.sum_cons]
        omega
    | cons₂ _ hsub2 =>
      rename_i s2
      have h1 := ih hL s2 hsub2
      simp only [List.sum_cons, List.length_cons, List.take_succ_cons]
      omega

theorem sortDescending_perm (sizes : List Int) : (sortDescending sizes).Perm sizes :=
  List.perm_insertionSort _ sizes

theorem sortDescending_sorted (sizes : List Int) :
    (sortDescending sizes).Sorted (fun a b => a ≥ b) :=
  List.sorted_insertionSort _ sizes

/-- The sum of the first `k` elements of the sorted slice is the sum of the `k` largest
values, for `k` up to the number of values. -/
theorem take_sorted_isTopSum (sizes : List Int) (k : Nat) (hk : k ≤ sizes.length) :
    IsTopSum sizes k ((sortDescending sizes).take k).sum := by
  have hperm := sortDescending_perm sizes
  have hcoe : ((sortDescending sizes : List Int) : Multiset Int) = (sizes : Multiset Int) :=
    Quotient.sound hperm
  have hlen : (sortDescending sizes).length = sizes.length := hperm.length_eq
  constructor
  · refine ⟨(((sortDescending sizes).take k : List Int) : Multiset Int), ?_, ?_, ?_⟩
    · rw [← hcoe]
      exact Multiset.coe_le.2 (List.take_sublist _ _).subperm
    · simp [hlen, hk]
    · simp
  · intro t hle hcard
    induction t using Quotient.inductionOn with
    | _ s =>
      rw [← hcoe] at hle
      obtain ⟨s2, hs2perm, hs2sub⟩ := Multiset.coe_le.1 hle
      have hsum : s.sum = s2.sum := hs2perm.symm.sum_eq
      have hlen2 : s2.length = k := by
        rw [hs2perm.length_eq]
        simpa using hcard
      have hmain := sublist_sum_le_take _ (sortDescending_sorted sizes) s2 hs2sub
      rw [hlen2] at hmain
      simpa [hsum] using hmain

theorem take_min_length (L : List Int) (k : Nat) : L.take (min k L.length) = L.take k := by
  by_cases h : k ≤ L.length
  · rw [Nat.min_eq_left h]
  · have h2 : L.length ≤ k := by omega
    rw [Nat.min_eq_right h2, List.take_of_length_le h2, List.take_of_length_le (le_refl _)]

/-- C17, as stated, fails: with table-concurrency 2 and two tables of total size `2^62`
each, the two largest values sum to `2^63`, but the signed 64-bit accumulator wraps
around to `-2^63`. -/
theorem topNTotalSize_overflow :
    ¬ ∀ (cfg : Config) (dbsMeta : List MDDatabaseMeta),
      IsTopSum (tableTotalSizes dbsMeta)
        (min cfg.App.TableConcurrency.toNat (tableTotalSizes dbsMeta).length)
        (topNTotalSize cfg dbsMeta) := by
  intro h
  have hv : topNTotalSize (sampleConfig 1)
      [⟨"db", [⟨"a", 4611686018427387904⟩, ⟨"b", 4611686018427387904⟩]⟩]
      = -9223372036854775808 := by decide
  have h2 := (h (sampleConfig 1)
    [⟨"db", [⟨"a", 4611686018427387904⟩, ⟨"b", 4611686018427387904⟩]⟩]).2
    (([4611686018427387904, 4611686018427387904] : List Int) : Multiset Int) (le_refl _) rfl
  rw [hv] at h2
  revert h2
  decide

/-- C17, amended: for every list of database metas and every table-concurrency `K`, the
accumulated `topNTotalSize` is the sum `v` of the `min(max(K,0), n)` largest values of
the multiset of `TotalSize` over all tables (the maximum sum of a sub-multiset of that
size), wrapped around to the signed 64-bit range; it is `v` itself whenever `v` lies in
that range, and it is 0 when `K ≤ 0` or there are no tables. -/
theorem topNTotalSize_is_wrapped_top_sum (cfg : Config) (dbsMeta : List MDDatabaseMeta) :
    ∃ v : Int,
      IsTopSum (tableTotalSizes dbsMeta)
        (min cfg.App.TableConcurrency.toNat (tableTotalSizes dbsMeta).length) v ∧
      topNTotalSize cfg dbsMeta = wrapInt64 v ∧
      ((-2 ^ 63 ≤ v ∧ v < 2 ^ 63) → topNTotalSize cfg dbsMeta = v) ∧
      ((cfg.App.TableConcurrency ≤ 0 ∨ tableTotalSizes dbsMeta = []) →
        topNTotalSize cfg dbsMeta = 0) := by
  have hlen : (sortDescending (tableTotalSizes dbsMeta)).length
      = (tableTotalSizes dbsMeta).length := (sortDescending_perm _).length_eq
  have htake : (sortDescending (tableTotalSizes dbsMeta)).take
      (min cfg.App.TableConcurrency.toNat (tableTotalSizes dbsMeta).length)
        = (sortDescending (tableTotalSizes dbsMeta)).take cfg.App.TableConcurrency.toNat := by
    rw [← hlen]
    exact take_min_length _ _
  refine ⟨((sortDescending (tableTotalSizes dbsMeta)).take
    (min cfg.App.TableConcurrency.toNat (tableTotalSizes dbsMeta).length)).sum,
    take_sorted_isTopSum _ _ (Nat.min_le_right _ _), ?_, ?_, ?_⟩
  · rw [htake]
    exact topNTotalSize_eq cfg dbsMeta
  · rintro ⟨h1, h2⟩
    rw [htake] at h1 h2 ⊢
    rw [topNTotalSize_eq, wrapInt64_of_range _ h1 h2]
  · rintro (hK | hnil)
    · have h0 : cfg.App.TableConcurrency.toNat = 0 := by omega
      rw [topNTotalSize_eq, h0]
      simp [wrapInt64]
    · rw [topNTotalSize_eq, hnil]
      simp [sortDescending, wrapInt64]

end TidbLightning
